import Mathlib

/-!
Verification development for the go-efd client (package `efd`): a shallow
embedding of its pure computational core — date parsing, HTML fragment
normalisation, anchor parsing, URL handling, the report-format classifier,
the paged search-row processing, the table extractors, the report
serializer, and a request-trace model of its network paths — together with
theorems settling the specification's claims against it.

Go standard-library calls (`time.Parse`, `path.*`, `net/url`, `strings.*`,
`regexp` with the two fixed patterns) and the goquery fragment operations
are modelled by executable Lean functions; each such model is doc-commented
at its definition.  Everything else is translated directly from the Go
source.
-/

namespace Efd

/-! ## Dates -/

/-- Calendar date (year, month, day).  Models the day/month/year components
of a Go `time.Time`; the code under verification never uses time-of-day. -/
structure Date where
  year : Nat := 1
  month : Nat := 1
  day : Nat := 1
deriving DecidableEq, Repr

/-- Model of Go `isLeap`. -/
def isLeapYear (y : Nat) : Bool :=
  y % 4 = 0 && (y % 100 ≠ 0 || y % 400 = 0)

/-- Model of the number of days in a month, as Go `time` checks it. -/
def daysInMonth (y m : Nat) : Nat :=
  if m = 2 then (if isLeapYear y then 29 else 28)
  else if m = 4 || m = 6 || m = 9 || m = 11 then 30
  else 31

/-- Parse exactly `n` decimal digits from the front of `l`, returning the
value and the remainder. -/
def parseDigits : Nat → List Char → Option (Nat × List Char)
  | 0, l => some (0, l)
  | _ + 1, [] => none
  | n + 1, c :: rest =>
    if c.isDigit then
      match parseDigits n rest with
      | some (v, r) => some ((c.toNat - 48) * 10 ^ n + v, r)
      | none => none
    else none

/-- Model of Go `time.Parse` with the client's default layout
`01/02/2006` (`MM/DD/YYYY`): two-digit month, slash, two-digit day, slash,
four-digit year, whole string consumed, month and day range-checked. -/
def parseDateUS (s : String) : Option Date :=
  match parseDigits 2 s.toList with
  | some (m, '/' :: r1) =>
    match parseDigits 2 r1 with
    | some (d, '/' :: r2) =>
      match parseDigits 4 r2 with
      | some (y, []) =>
        if 1 ≤ m ∧ m ≤ 12 ∧ 1 ≤ d ∧ d ≤ daysInMonth y m then
          some { year := y, month := m, day := d }
        else none
      | _ => none
    | _ => none
  | _ => none

/-! ## Whitespace and HTML normalisation

Models of `strings.TrimSpace`, of the fixed regexps `\s+` (collapse runs of
whitespace) and `<.*?>` (non-greedy tag removal; in RE2 `.` does not match a
newline), and of the three normalisers `trimHTMLSelection`,
`stripHTMLSelection` and `removeHTMLSelection`, which all operate on a
fragment's inner markup string. -/

/-- Whitespace as trimmed by Go `strings.TrimSpace` (ASCII fragment). -/
def isSpaceGo (c : Char) : Bool :=
  c = ' ' || c = '\t' || c = '\n' || c = '\x0d' || c = '\x0b' || c = '\x0c'

/-- Whitespace as matched by the RE2 class `\s`. -/
def isSpaceRe (c : Char) : Bool :=
  c = ' ' || c = '\t' || c = '\n' || c = '\x0d' || c = '\x0c'

/-- Trim `isSpaceGo` characters from both ends of a character list. -/
def trimChars (l : List Char) : List Char :=
  ((l.dropWhile isSpaceGo).reverse.dropWhile isSpaceGo).reverse

/-- Fuel-driven worker for whitespace collapsing; fuel is the list
length, which always suffices because each step consumes at least one
character. -/
def collapseWsFuel : Nat → List Char → List Char
  | 0, l => l
  | _ + 1, [] => []
  | n + 1, c :: rest =>
    if isSpaceRe c then ' ' :: collapseWsFuel n (rest.dropWhile isSpaceRe)
    else c :: collapseWsFuel n rest

/-- Replace each maximal run of `\s` characters by a single space, as
`regexp.MustCompile(\s+).ReplaceAllString(s, " ")` does. -/
def collapseWs (l : List Char) : List Char :=
  collapseWsFuel l.length l

/-- Scan for the `>` closing a tag: RE2 `<.*?>` cannot cross a newline, so
a newline before any `>` means no match at this `<`. -/
def findTagEnd : List Char → Option (List Char)
  | [] => none
  | c :: rest =>
    if c = '>' then some rest
    else if c = '\n' then none
    else findTagEnd rest

/-- Fuel-driven worker for tag removal; fuel is the list length, which
always suffices because each step consumes at least one character. -/
def removeTagsFuel : Nat → List Char → List Char
  | 0, l => l
  | _ + 1, [] => []
  | n + 1, c :: rest =>
    if c = '<' then
      match findTagEnd rest with
      | some rest2 => ' ' :: removeTagsFuel n rest2
      | none => c :: removeTagsFuel n rest
    else c :: removeTagsFuel n rest

/-- Replace every match of the non-greedy `<.*?>` by a single space. -/
def removeTags (l : List Char) : List Char :=
  removeTagsFuel l.length l

/-- Model of `trimHTMLSelection`: inner markup with surrounding whitespace
trimmed. -/
def trimHTML (s : String) : String :=
  String.mk (trimChars s.toList)

/-- Model of `stripHTMLSelection`: trim, then collapse internal whitespace
runs to single spaces. -/
def stripHTML (s : String) : String :=
  String.mk (collapseWs (trimChars s.toList))

/-- Model of `removeHTMLSelection`: strip tag-like substrings, trim, then
collapse whitespace runs. -/
def removeHTML (s : String) : String :=
  String.mk (collapseWs (trimChars (removeTags s.toList)))

/-! ## Anchor fragments

Model of `parseAnchor`: goquery parses the string as an HTML fragment,
takes the first `<a>` element, and reads its `href` and `target`
attributes and its text content.  `goquery.NewDocumentFromReader` on an
in-memory string never returns an error, so the Go function's error result
is always `nil` and the model is total; a fragment with no anchor yields
empty fields.  Entity decoding is not modelled (no input under test
contains entities). -/

/-- Anchor contents, mirroring the Go struct `anchorData`. -/
structure AnchorData where
  href : String := ""
  target : String := ""
  text : String := ""
deriving DecidableEq, Repr

/-- Does this character end an HTML tag name? -/
def tagNameEnd : Option Char → Bool
  | none => true
  | some c => isSpaceGo c || c = '>' || c = '/'

/-- Scan for the first `<a` opening an anchor element; returns the
remainder after the `<a`. -/
def findAnchorStart : List Char → Option (List Char)
  | [] => none
  | c :: rest =>
    if c = '<' then
      match rest with
      | a :: rest2 =>
        if a = 'a' && tagNameEnd rest2.head? then some rest2
        else findAnchorStart rest
      | [] => none
    else findAnchorStart rest

/-- Parse one attribute value (double-quoted, single-quoted, or bare). -/
def parseAttrValue : List Char → List Char × List Char
  | [] => ([], [])
  | c :: rest =>
    if c = '"' then
      (rest.takeWhile (fun d => d ≠ '"'), (rest.dropWhile (fun d => d ≠ '"')).drop 1)
    else if c = '\x27' then
      (rest.takeWhile (fun d => d ≠ '\x27'), (rest.dropWhile (fun d => d ≠ '\x27')).drop 1)
    else
      ((c :: rest).takeWhile (fun d => !(isSpaceGo d || d = '>')),
        (c :: rest).dropWhile (fun d => !(isSpaceGo d || d = '>')))

/-- Fuel-driven attribute list parser; stops at the closing `>` and
returns the attributes together with the remainder after it. -/
def parseAttrs : Nat → List Char → List (List Char × List Char) × List Char
  | 0, l => ([], l)
  | n + 1, l =>
    match l.dropWhile isSpaceGo with
    | [] => ([], [])
    | c :: rest =>
      if c = '>' then ([], rest)
      else if c = '/' then parseAttrs n rest
      else
        let name := (c :: rest).takeWhile (fun d => !(isSpaceGo d || d = '=' || d = '>' || d = '/'))
        let r1 := ((c :: rest).dropWhile (fun d => !(isSpaceGo d || d = '=' || d = '>' || d = '/'))).dropWhile isSpaceGo
        match r1 with
        | '=' :: r2 =>
          let (v, r3) := parseAttrValue (r2.dropWhile isSpaceGo)
          let (attrs, rest4) := parseAttrs n r3
          ((name, v) :: attrs, rest4)
        | _ =>
          let (attrs, rest4) := parseAttrs n r1
          ((name, []) :: attrs, rest4)

/-- Find the next `>` (tags emitted by the HTML parser may span lines). -/
def findGt : List Char → Option (List Char)
  | [] => none
  | c :: rest => if c = '>' then some rest else findGt rest

/-- Text content of the anchor body: concatenated text, descending into
nested elements, up to the closing `</a`. -/
def anchorTextFuel : Nat → List Char → List Char
  | 0, _ => []
  | _ + 1, [] => []
  | n + 1, c :: rest =>
    if c = '<' then
      match rest with
      | d :: e :: _ =>
        if d = '/' && e = 'a' then []
        else
          match findGt rest with
          | some r2 => anchorTextFuel n r2
          | none => anchorTextFuel n rest
      | _ =>
        match findGt rest with
        | some r2 => anchorTextFuel n r2
        | none => anchorTextFuel n rest
    else c :: anchorTextFuel n rest

/-- Model of `parseAnchor` (see section comment). -/
def parseAnchor (tag : String) : AnchorData :=
  match findAnchorStart tag.toList with
  | none => {}
  | some rest =>
    let (attrs, body) := parseAttrs rest.length rest
    { href := String.mk ((attrs.lookup "href".toList).getD [])
      target := String.mk ((attrs.lookup "target".toList).getD [])
      text := String.mk (anchorTextFuel body.length body) }

/-! ## URLs

Model of the slice of `net/url` the client uses: `url.Parse` on document
hrefs and image sources, `URL.ResolveReference` against the fixed base
URL, and `URL.String`.  User info, ports, fragments and opaque URLs do not
occur in this client and are not modelled. -/

/-- Parsed URL (the components the client reads or writes). -/
structure URLModel where
  scheme : String := ""
  host : String := ""
  path : String := ""
  rawQuery : String := ""
deriving DecidableEq, Repr

/-- Model of `URL.String` for the modelled components. -/
def urlString (u : URLModel) : String :=
  (if u.scheme ≠ "" then u.scheme ++ "://" ++ u.host
   else if u.host ≠ "" then "//" ++ u.host else "")
    ++ u.path ++ (if u.rawQuery ≠ "" then "?" ++ u.rawQuery else "")

/-- Hexadecimal digit test (as `net/url` validates percent escapes). -/
def isHexDigitGo (c : Char) : Bool :=
  c.isDigit || ('a' ≤ c && c ≤ 'f') || ('A' ≤ c && c ≤ 'F')

/-- Every `%` must begin a valid two-hex-digit escape. -/
def validEscapes : List Char → Bool
  | [] => true
  | c :: rest =>
    if c = '%' then
      match rest with
      | a :: b :: r2 => isHexDigitGo a && isHexDigitGo b && validEscapes r2
      | _ => false
    else validEscapes rest

/-- Model of `url.Parse` failure conditions: an ASCII control character or
an invalid percent escape anywhere in the string. -/
def urlParseOk (l : List Char) : Bool :=
  l.all (fun c => 32 ≤ c.toNat && c.toNat ≠ 127) && validEscapes l

/-- Model of `url.Parse` on the URL shapes the client meets: an absolute
URL `scheme://host/path`, a protocol-relative `//host/path`, or a
path-only reference; a trailing `?query` is split off. -/
def urlParse (s : String) : Option URLModel :=
  let l := s.toList
  if urlParseOk l then
    let alpha := l.takeWhile (fun c => c.isAlpha)
    let rest := l.dropWhile (fun c => c.isAlpha)
    let mkRel : List Char → URLModel := fun chars =>
      { path := String.mk (chars.takeWhile (fun c => c ≠ '?'))
        rawQuery := String.mk ((chars.dropWhile (fun c => c ≠ '?')).drop 1) }
    match rest with
    | ':' :: '/' :: '/' :: r =>
      if alpha ≠ [] then
        some { scheme := String.mk alpha
               host := String.mk (r.takeWhile (fun c => !(c = '/' || c = '?')))
               path := String.mk ((r.dropWhile (fun c => !(c = '/' || c = '?'))).takeWhile (fun c => c ≠ '?'))
               rawQuery := String.mk (((r.dropWhile (fun c => !(c = '/' || c = '?'))).dropWhile (fun c => c ≠ '?')).drop 1) }
      else some (mkRel l)
    | _ =>
      match l with
      | '/' :: '/' :: r =>
        some { host := String.mk (r.takeWhile (fun c => !(c = '/' || c = '?')))
               path := String.mk ((r.dropWhile (fun c => !(c = '/' || c = '?'))).takeWhile (fun c => c ≠ '?'))
               rawQuery := String.mk (((r.dropWhile (fun c => !(c = '/' || c = '?'))).dropWhile (fun c => c ≠ '?')).drop 1) }
      | _ => some (mkRel l)
  else none

/-- Split a character list on `/`, keeping empty components. -/
def splitSlash (l : List Char) : List (List Char) :=
  l.foldr
    (fun c acc =>
      if c = '/' then [] :: acc
      else
        match acc with
        | s :: ss => (c :: s) :: ss
        | [] => [[c]])
    [[]]

/-- Join components with `/` separators. -/
def joinS : List (List Char) → List Char
  | [] => []
  | [s] => s
  | s :: rest => s ++ '/' :: joinS rest

/-- Process path components as Go `net/url.resolvePath` does: `.` is
dropped, `..` pops, others (including empty components) are kept; the
flag records whether the last component was a dot, which reinstates a
trailing slash. -/
def rdsAux : List (List Char) → List (List Char) → Bool → List (List Char) × Bool
  | [], acc, tr => (acc, tr)
  | c :: rest, acc, _ =>
    if c = ['.'] then rdsAux rest acc true
    else if c = ['.', '.'] then rdsAux rest acc.dropLast true
    else rdsAux rest (acc ++ [c]) false

/-- Dot-segment removal used by reference resolution. -/
def removeDotSegmentsC (p : List Char) : List Char :=
  let (stack, tr) := rdsAux (splitSlash p) [] false
  joinS stack ++ (if tr then ['/'] else [])

/-- String form of dot-segment removal. -/
def removeDotSegments (p : String) : String :=
  String.mk (removeDotSegmentsC p.toList)

/-- Directory part of a path including the final slash (used when merging
a relative reference). -/
def dirWithSlash (p : String) : String :=
  String.mk ((p.toList.reverse.dropWhile (fun c => c ≠ '/')).reverse)

/-- Model of `URL.ResolveReference` for the modelled components. -/
def resolveReference (base ref : URLModel) : URLModel :=
  if ref.scheme ≠ "" then { ref with path := removeDotSegments ref.path }
  else if ref.host ≠ "" then
    { scheme := base.scheme, host := ref.host
      path := removeDotSegments ref.path, rawQuery := ref.rawQuery }
  else if ref.path = "" then
    { scheme := base.scheme, host := base.host, path := base.path
      rawQuery := if ref.rawQuery ≠ "" then ref.rawQuery else base.rawQuery }
  else
    let merged :=
      if ref.path.toList.head? = some '/' then ref.path
      else dirWithSlash base.path ++ ref.path
    { scheme := base.scheme, host := base.host
      path := removeDotSegments merged, rawQuery := ref.rawQuery }

/-! ## The Go `path` package

Models of `path.Split`, `path.Clean`, `path.Base` and `path.Dir`, the four
standard-library functions `URLToReportFormat` and the pager use.
`path.Clean` is modelled component-wise: split on `/`, drop empty and `.`
components, resolve `..` (popping when rooted; keeping a leading `..` run
when not), and reassemble — the same input/output behaviour as the
byte-level Go implementation. -/

/-- Component processing of `path.Clean`. -/
def cleanComps (rooted : Bool) : List (List Char) → List (List Char) → List (List Char)
  | acc, [] => acc
  | acc, c :: cs =>
    if c = [] || c = ['.'] then cleanComps rooted acc cs
    else if c = ['.', '.'] then
      if rooted then cleanComps rooted acc.dropLast cs
      else
        match acc.getLast? with
        | none => cleanComps rooted (acc ++ [c]) cs
        | some l => if l = ['.', '.'] then cleanComps rooted (acc ++ [c]) cs else cleanComps rooted acc.dropLast cs
    else cleanComps rooted (acc ++ [c]) cs

/-- Model of `path.Clean`. -/
def pathCleanC (p : List Char) : List Char :=
  if p = [] then ['.']
  else
    let rooted := p.head? = some '/'
    let out := cleanComps (decide rooted) [] (splitSlash p)
    if rooted then '/' :: joinS out
    else if out = [] then ['.'] else joinS out

/-- Model of `path.Split`: split after the final slash. -/
def pathSplitC (p : List Char) : List Char × List Char :=
  let fileRev := p.reverse.takeWhile (fun c => c ≠ '/')
  (p.take (p.length - fileRev.length), fileRev.reverse)

/-- Model of `path.Base`: last element after dropping trailing slashes. -/
def pathBaseC (p : List Char) : List Char :=
  if p = [] then ['.']
  else
    let q := (p.reverse.dropWhile (fun c => c = '/')).reverse
    if q = [] then ['/']
    else (q.reverse.takeWhile (fun c => c ≠ '/')).reverse

/-- Model of `path.Dir`: the directory part of `path.Split`, cleaned. -/
def pathDirC (p : List Char) : List Char :=
  pathCleanC (pathSplitC p).1

/-- String form of `path.Base` (used for the report identifier). -/
def pathBase (s : String) : String :=
  String.mk (pathBaseC s.toList)

/-! ## Report formats and the classifier -/

/-- ReportFormat enumerates the report formats, in the source's `iota`
order (the order fixes each format's JSON integer value). -/
inductive ReportFormat where
  | AnnualFormat
  | DueDateExtensionFormat
  | PTRFormat
  | BlindTrustFormat
  | OtherDocumentFormat
  | PaperFormat
  | UnknownFormat
deriving DecidableEq, Repr

/-- Integer value of a format (Go `iota`), as serialized to JSON. -/
def ReportFormat.toInt : ReportFormat → Int
  | .AnnualFormat => 0
  | .DueDateExtensionFormat => 1
  | .PTRFormat => 2
  | .BlindTrustFormat => 3
  | .OtherDocumentFormat => 4
  | .PaperFormat => 5
  | .UnknownFormat => 6

/-- Translation of `URLToReportFormat` (part_005 lines 70–93): split the
path; when the file part is empty, step the directory up twice; then
dispatch on its base, with the `regular`/`extension-notice` check for due
date extensions. -/
def URLToReportFormat (link : URLModel) : ReportFormat :=
  let sp := pathSplitC link.path.toList
  let dir := if sp.2 = [] then pathDirC (pathDirC sp.1) else sp.1
  if pathBaseC dir = "ptr".toList then .PTRFormat
  else if pathBaseC dir = "annual".toList then .AnnualFormat
  else if pathBaseC dir = "paper".toList then .PaperFormat
  else if pathBaseC dir = "regular".toList then
    if pathBaseC (pathDirC dir) = "extension-notice".toList then .DueDateExtensionFormat
    else .UnknownFormat
  else .UnknownFormat

/-! ## Transactions and the table cell handler -/

/-- Transaction mirrors the Go struct of the same name; the Go field
`Type` is rendered `trType` (`Type` is reserved in Lean).  Defaults are
the Go zero values. -/
structure Transaction where
  date : Date := {}
  owner : String := ""
  ticker : String := ""
  assetName : String := ""
  assetType : String := ""
  trType : String := ""
  amount : String := ""
  comment : String := ""
  valid : Bool := false
deriving DecidableEq, Repr

/-- CellType enumerates the table cell kinds, as the Go `cellType`
constants. -/
inductive CellType where
  | ignoreCell
  | trNumCell
  | trDateCell
  | ownerCell
  | tickerCell
  | assetNameCell
  | assetTypeCell
  | trTypeCell
  | amountCell
  | commentCell
  | validCell
deriving DecidableEq, Repr

/-- Translation of `handleTransactionCell` (part_001 lines 650–737).  A
cell is its inner markup string; the result pairs the updated transaction
with the handler's boolean (`false` aborts the row).  `pd` stands for
`time.Parse` with the client's `dateLayout`. -/
def handleTransactionCell (pd : String → Option Date) (transaction : Transaction)
    (t : String) (ct : CellType) : Transaction × Bool :=
  match ct with
  | .trNumCell => (transaction, true)
  | .trDateCell =>
    match pd (removeHTML t) with
    | none => (transaction, false)
    | some d => ({ transaction with date := d }, true)
  | .ownerCell => ({ transaction with owner := removeHTML t }, true)
  | .tickerCell =>
    let tString := stripHTML t
    if tString = "--" then ({ transaction with ticker := tString }, true)
    else
      let anchor := parseAnchor tString
      if anchor.text = "" then (transaction, false)
      else ({ transaction with ticker := anchor.text }, true)
  | .assetNameCell => ({ transaction with assetName := removeHTML t }, true)
  | .assetTypeCell => ({ transaction with assetType := removeHTML t }, true)
  | .trTypeCell => ({ transaction with trType := removeHTML t }, true)
  | .amountCell => ({ transaction with amount := removeHTML t }, true)
  | .commentCell => ({ transaction with comment := removeHTML t }, true)
  | .validCell => ({ transaction with valid := true }, true)
  | .ignoreCell => (transaction, true)

/-- EachWithBreak over a row's cells: apply the per-index step, stopping
as soon as a step returns `false` (goquery `Selection.EachWithBreak`). -/
def runCells (step : Transaction → Nat → String → Transaction × Bool) :
    Transaction → Nat → List String → Transaction
  | tr, _, [] => tr
  | tr, j, t :: ts =>
    let r := step tr j t
    if r.2 then runCells step r.1 (j + 1) ts else r.1

/-- Per-index dispatch of `HandlePTRSearchResult`'s cell switch
(part_001 lines 405–439): index 8 runs the comment cell and, on success,
the valid cell. -/
def ptrRowStep (pd : String → Option Date) (tr : Transaction) (j : Nat) (t : String) :
    Transaction × Bool :=
  match j with
  | 1 => handleTransactionCell pd tr t .trDateCell
  | 2 => handleTransactionCell pd tr t .ownerCell
  | 3 => handleTransactionCell pd tr t .tickerCell
  | 4 => handleTransactionCell pd tr t .assetNameCell
  | 5 => handleTransactionCell pd tr t .assetTypeCell
  | 6 => handleTransactionCell pd tr t .trTypeCell
  | 7 => handleTransactionCell pd tr t .amountCell
  | 8 =>
    let r := handleTransactionCell pd tr t .commentCell
    if r.2 then ((handleTransactionCell pd r.1 t .validCell).1, true) else (r.1, false)
  | _ => (tr, true)

/-- One PTR table row: rows without exactly 9 cells are left as the zero
transaction (never valid); otherwise the cells run through the switch. -/
def HandlePTRRow (pd : String → Option Date) (tds : List String) : Transaction :=
  if tds.length ≠ 9 then {} else runCells (ptrRowStep pd) {} 0 tds

/-- Row-processing core of `HandlePTRSearchResult` (part_001 lines
396–449): one transaction slot per row, then keep the valid ones. -/
def HandlePTRRows (pd : String → Option Date) (rows : List (List String)) : List Transaction :=
  (rows.map (HandlePTRRow pd)).filter (fun record => record.valid)

/-- Per-index dispatch of the Annual Part 4a switch (part_001 lines
500–535): the PTR layout shifted one column right, with no asset type. -/
def annual4aRowStep (pd : String → Option Date) (tr : Transaction) (j : Nat) (t : String) :
    Transaction × Bool :=
  match j with
  | 2 => handleTransactionCell pd tr t .trDateCell
  | 3 => handleTransactionCell pd tr t .ownerCell
  | 4 => handleTransactionCell pd tr t .tickerCell
  | 5 => handleTransactionCell pd tr t .assetNameCell
  | 6 => handleTransactionCell pd tr t .trTypeCell
  | 7 => handleTransactionCell pd tr t .amountCell
  | 8 =>
    let r := handleTransactionCell pd tr t .commentCell
    if r.2 then ((handleTransactionCell pd r.1 t .validCell).1, true) else (r.1, false)
  | _ => (tr, true)

/-- Per-index dispatch of the Annual Part 4b switch (part_001 lines
548–583): owner, ticker, asset name, type, date, amount, comment. -/
def annual4bRowStep (pd : String → Option Date) (tr : Transaction) (j : Nat) (t : String) :
    Transaction × Bool :=
  match j with
  | 2 => handleTransactionCell pd tr t .ownerCell
  | 3 => handleTransactionCell pd tr t .tickerCell
  | 4 => handleTransactionCell pd tr t .assetNameCell
  | 5 => handleTransactionCell pd tr t .trTypeCell
  | 6 => handleTransactionCell pd tr t .trDateCell
  | 7 => handleTransactionCell pd tr t .amountCell
  | 8 =>
    let r := handleTransactionCell pd tr t .commentCell
    if r.2 then ((handleTransactionCell pd r.1 t .validCell).1, true) else (r.1, false)
  | _ => (tr, true)

/-- One Annual Part 4a row (9-cell check as in the source). -/
def HandleAnnual4aRow (pd : String → Option Date) (tds : List String) : Transaction :=
  if tds.length ≠ 9 then {} else runCells (annual4aRowStep pd) {} 0 tds

/-- One Annual Part 4b row (9-cell check as in the source). -/
def HandleAnnual4bRow (pd : String → Option Date) (tds : List String) : Transaction :=
  if tds.length ≠ 9 then {} else runCells (annual4bRowStep pd) {} 0 tds

/-- Section heading literal for Part 4a. -/
def part4aTitle : String := "Part 4a. Periodic Transaction Report Summary"

/-- Section heading literal for Part 4b. -/
def part4bTitle : String := "Part 4b. Transactions"

/-- Row-processing core of `HandleAnnualSearchResult` (part_001 lines
484–597).  A document is its heading list, each heading carrying its
inner markup and its section's table rows.  Matching a heading replaces
the corresponding transaction slice (Go reassigns it); the output is the
4a slice, then the 4b slice, filtered to valid rows. -/
def HandleAnnualRows (pd : String → Option Date)
    (doc : List (String × List (List String))) : List Transaction :=
  let st := doc.foldl
    (fun (st : List Transaction × List Transaction) hdr =>
      let title := removeHTML hdr.1
      if title = part4aTitle then (hdr.2.map (HandleAnnual4aRow pd), st.2)
      else if title = part4bTitle then (st.1, hdr.2.map (HandleAnnual4bRow pd))
      else st)
    ([], [])
  (st.1 ++ st.2).filter (fun record => record.valid)

/-- Row-processing core of `HandlePaperSearchResult` (part_001 lines
628–645): one slot per filing-page image; an image with no `src`
attribute or an unparsable source URL leaves its slot `nil` (`none`). -/
def HandlePaperPages (imgs : List (Option String)) : List (Option URLModel) :=
  imgs.map
    (fun img =>
      match img with
      | none => none
      | some s =>
        match urlParse s with
        | none => none
        | some u => some u)

/-! ## The search pager -/

/-- ASCII model of `strings.ToLower`. -/
def toLowerGo (s : String) : String :=
  String.mk (s.toList.map (fun c =>
    if 'A' ≤ c && c ≤ 'Z' then Char.ofNat (c.toNat + 32) else c))

/-- Replace the first occurrence of `old` (model of
`strings.Replace(s, old, new, 1)`). -/
def replaceFirstC (old new : List Char) : List Char → List Char
  | [] => []
  | c :: rest =>
    if old.isPrefixOf (c :: rest) then new ++ (c :: rest).drop old.length
    else c :: replaceFirstC old new rest

/-- String form of first-occurrence replacement; an empty `old` prepends
`new`, as in Go. -/
def replaceFirst (s old new : String) : String :=
  if old = "" then new ++ s else String.mk (replaceFirstC old.toList new.toList s.toList)

/-- The client's base URL, from `initParam`
(`https://efdsearch.senate.gov`). -/
def baseURL : URLModel := { scheme := "https", host := "efdsearch.senate.gov" }

/-- SearchResult mirrors the Go struct; defaults are the Go zero values
(note the zero `ReportFormat` is `AnnualFormat`, iota 0). -/
structure SearchResult where
  firstName : String := ""
  lastName : String := ""
  fullName : String := ""
  fileURL : URLModel := {}
  reportName : String := ""
  reportFormat : ReportFormat := .AnnualFormat
  reportID : String := ""
  dateSubmitted : Date := {}
  valid : Bool := false
deriving DecidableEq, Repr

/-- Straight-line success path of the per-row body of
`searchReportDataPaged` (part_001 lines 300–337): 5 elements, submitted
date parses, the anchor fragment yields a non-empty href that parses as a
URL; the result is resolved against the base URL, classified, rewritten
`view`→`print` for paper copies, and the name fields lower-cased.
Returns `none` exactly when the body would `break`. -/
def parseSearchRow (pd : String → Option Date) (result : List String) : Option SearchResult :=
  if result.length = 5 then
    match pd (result.getD 4 "") with
    | none => none
    | some date =>
      let anchor := parseAnchor (result.getD 3 "")
      if anchor.href = "" then none
      else
        match urlParse anchor.href with
        | none => none
        | some docURL =>
          let fileURL := resolveReference baseURL docURL
          let fmt := URLToReportFormat fileURL
          let fileURL :=
            if fmt = .PaperFormat then
              { fileURL with path := replaceFirst fileURL.path "view" "print" }
            else fileURL
          some { dateSubmitted := date, fileURL := fileURL, reportFormat := fmt
                 reportName := anchor.text, reportID := pathBase fileURL.path
                 firstName := toLowerGo (result.getD 0 "")
                 lastName := toLowerGo (result.getD 1 "")
                 fullName := toLowerGo (result.getD 2 "")
                 valid := true }
  else none

/-- The row loop of `searchReportDataPaged`: slots are pre-allocated per
row; a failing row `break`s the loop, leaving its own slot and every later
slot at the zero value. -/
def searchRowsLoop (pd : String → Option Date) : List (List String) → List SearchResult
  | [] => []
  | row :: rest =>
    match parseSearchRow pd row with
    | some r => r :: searchRowsLoop pd rest
    | none => {} :: rest.map (fun _ => ({} : SearchResult))

/-- Row-processing core of `searchReportDataPaged` (part_001 lines
299–344): run the row loop, then keep the valid slots. -/
def searchReportDataPagedRows (pd : String → Option Date)
    (data : List (List String)) : List SearchResult :=
  (searchRowsLoop pd data).filter (fun record => record.valid)

/-- Page loop of `SearchReportData` (part_001 lines 205–228) against an
endpoint that reports a constant `recordsTotal` `R` and serves page rows
by `start` offset.  `length` is the source's constant 100.  Returns the
accumulated results and the number of page requests issued; the loop
continues while `R - start - 100 > 0` (the `remainder` computed by
`searchReportDataPaged` at part_001 line 346). -/
def searchLoopGo (pd : String → Option Date) (R : Int)
    (data : Nat → List (List String)) (start : Nat) : List SearchResult × Nat :=
  let results := searchReportDataPagedRows pd (data start)
  if R - start - 100 > 0 then
    let rest := searchLoopGo pd R data (start + 100)
    (results ++ rest.1, rest.2 + 1)
  else (results, 1)
termination_by (R - start).toNat
decreasing_by omega

/-- Translation of `SearchReportData`'s pagination (start = 0, page size
100). -/
def SearchReportDataC (pd : String → Option Date) (R : Int)
    (data : Nat → List (List String)) : List SearchResult × Nat :=
  searchLoopGo pd R data 0

/-! ## Straight-line row forms used to state the extractor claims -/

/-- Ticker-cell success path: the `--` sentinel passes through verbatim,
anything else must be an anchor with non-empty link text. -/
def parseTicker (s : String) : Option String :=
  if s = "--" then some s
  else
    let anchor := parseAnchor s
    if anchor.text = "" then none else some anchor.text

/-- Straight-line success path of a 9-cell PTR row under the column
mapping of `HandlePTRSearchResult`: 0 ignored, 1 date, 2 owner, 3 ticker,
4 asset name, 5 asset type, 6 transaction type, 7 amount, 8 comment. -/
def parsePTRRow (pd : String → Option Date) (tds : List String) : Option Transaction :=
  match tds with
  | [_c0, c1, c2, c3, c4, c5, c6, c7, c8] =>
    match pd (removeHTML c1), parseTicker (stripHTML c3) with
    | some d, some tk =>
      some { date := d, owner := removeHTML c2, ticker := tk
             assetName := removeHTML c4, assetType := removeHTML c5
             trType := removeHTML c6, amount := removeHTML c7
             comment := removeHTML c8, valid := true }
    | _, _ => none
  | _ => none

/-! ## Network-path model

Request-trace embedding of the client's effectful paths.  Each network
round trip is recorded as a request tagged with which HTTP client issued
it: the session's own client `c.client` (whose cookie jar is the
session's) or the process-wide `http.DefaultClient`.  The abstract `net`
function gives the cookies a response sets; only requests issued through
the session client touch the session's jar. -/

/-- Which HTTP client issues a request. -/
inductive HClientTag where
  | sessionClient
  | defaultClient
deriving DecidableEq, Repr

/-- The kinds of requests the modelled paths issue. -/
inductive ReqKind where
  | homePageGet
  | disclaimerPost
  | searchDataPost
  | documentGet
deriving DecidableEq, Repr

/-- One recorded network request. -/
structure Req where
  kind : ReqKind
  client : HClientTag
deriving DecidableEq, Repr

/-- Session state: the `authed` flag and the cookie jar of `c.client`. -/
structure Session where
  authed : Bool := false
  jar : List String := []
deriving DecidableEq, Repr

/-- Issue one request: only session-client requests can store cookies in
the session's jar. -/
def applyReq (net : ReqKind → List String) (s : Session) (r : Req) : Session :=
  if r.client = .sessionClient then { s with jar := s.jar ++ net r.kind } else s

/-- Cookies a request carries from the session's store: the jar for
session-client requests, nothing for default-client ones. -/
def cookiesSentWith (s : Session) (r : Req) : List String :=
  if r.client = .sessionClient then s.jar else []

/-- Requests of `AcceptDisclaimer` (part_001 lines 166–197): a GET of the
home page via `parseCSRFToken` and the acceptance POST, both through
`c.client`. -/
def acceptDisclaimerReqs : List Req :=
  [⟨.homePageGet, .sessionClient⟩, ⟨.disclaimerPost, .sessionClient⟩]

/-- Trace of `AcceptDisclaimer`'s success path: both requests go through
the session client; on return the session is marked authenticated. -/
def AcceptDisclaimerRun (net : ReqKind → List String) (s : Session) : Session × List Req :=
  let s1 := acceptDisclaimerReqs.foldl (applyReq net) s
  ({ s1 with authed := true }, acceptDisclaimerReqs)

/-- Shared network shape of the three document handlers (part_001 lines
375–387, 461–468, 605–616): run the disclaimer handshake when the
session is not authenticated, then GET the document through `c.client`. -/
def documentHandlerRun (net : ReqKind → List String) (s : Session) : Session × List Req :=
  let pre := if s.authed then (s, ([] : List Req)) else AcceptDisclaimerRun net s
  let r : Req := ⟨.documentGet, .sessionClient⟩
  (applyReq net pre.1 r, pre.2 ++ [r])

/-- Network path of `HandlePTRSearchResult`. -/
def HandlePTRSearchResultRun (net : ReqKind → List String) (s : Session) : Session × List Req :=
  documentHandlerRun net s

/-- Network path of `HandleAnnualSearchResult`. -/
def HandleAnnualSearchResultRun (net : ReqKind → List String) (s : Session) : Session × List Req :=
  documentHandlerRun net s

/-- Network path of `HandlePaperSearchResult`. -/
def HandlePaperSearchResultRun (net : ReqKind → List String) (s : Session) : Session × List Req :=
  documentHandlerRun net s

/-- Network path of `searchReportDataPaged` (part_001 lines 267–282): a
single POST to the search-data endpoint issued through
`http.DefaultClient`, with no authenticated-flag check and no handshake. -/
def searchReportDataPagedRun (net : ReqKind → List String) (s : Session) : Session × List Req :=
  let r : Req := ⟨.searchDataPost, .defaultClient⟩
  (applyReq net s r, [r])

/-! ## JSON serialization model

Model of `encoding/json` as used by `ReportToJson` and its decode
counterpart, over a JSON value tree.  Struct fields marshal in
declaration order with their tag names; `omitempty` string fields are
dropped when empty; a nil slice marshals as `null`; `Valid` (tag `-`) is
never serialized.  `time.Time` marshals as an RFC 3339 string — the
modelled dates carry no time of day, so midnight UTC.  On decode, a
missing or null key leaves the field's zero value, a mistyped value is an
error, and `JSONURL`'s `UnmarshalJSON` — whose receiver is a value, not a
pointer — parses the string and assigns the result to a local copy,
leaving the actual field at its zero value (`nil` URL). -/

/-- JSON value tree. -/
inductive JValue where
  | null
  | jbool (b : Bool)
  | jnum (n : Int)
  | jstr (s : String)
  | jarr (xs : List JValue)
  | jobj (fields : List (String × JValue))
deriving Repr

/-- Two-digit zero padding. -/
def pad2 (n : Nat) : String :=
  if n < 10 then "0" ++ toString n else toString n

/-- Four-digit zero padding. -/
def pad4 (n : Nat) : String :=
  if n < 10 then "000" ++ toString n
  else if n < 100 then "00" ++ toString n
  else if n < 1000 then "0" ++ toString n
  else toString n

/-- RFC 3339 rendering of a date at midnight UTC (Go
`time.Time.MarshalJSON`). -/
def rfc3339 (d : Date) : String :=
  pad4 d.year ++ "-" ++ pad2 d.month ++ "-" ++ pad2 d.day ++ "T00:00:00Z"

/-- RFC 3339 parsing for the midnight-UTC dates this model emits (Go
`time.Time.UnmarshalJSON`). -/
def rfc3339Parse (s : String) : Option Date :=
  match parseDigits 4 s.toList with
  | some (y, '-' :: r1) =>
    match parseDigits 2 r1 with
    | some (m, '-' :: r2) =>
      match parseDigits 2 r2 with
      | some (d, rest) =>
        if rest = "T00:00:00Z".toList ∧ 1 ≤ m ∧ m ≤ 12 ∧ 1 ≤ d ∧ d ≤ daysInMonth y m then
          some { year := y, month := m, day := d }
        else none
      | _ => none
    | _ => none
  | _ => none

/-- Marshal one Transaction per its JSON tags (`date`, then the
`omitempty` string fields; `Valid` is tagged `-`). -/
def encodeTransaction (t : Transaction) : JValue :=
  .jobj ([("date", .jstr (rfc3339 t.date))]
    ++ (if t.owner = "" then [] else [("owner", .jstr t.owner)])
    ++ (if t.ticker = "" then [] else [("ticker", .jstr t.ticker)])
    ++ (if t.assetName = "" then [] else [("assetname", .jstr t.assetName)])
    ++ (if t.assetType = "" then [] else [("assettype", .jstr t.assetType)])
    ++ (if t.trType = "" then [] else [("type", .jstr t.trType)])
    ++ (if t.amount = "" then [] else [("amount", .jstr t.amount)])
    ++ (if t.comment = "" then [] else [("comment", .jstr t.comment)]))

/-- PaperReport mirrors the Go struct: one page-URL slot per image
(`none` for the slots the handler skipped). -/
structure PaperReport where
  pageURLs : List (Option URLModel) := []
deriving DecidableEq, Repr

/-- ParsedReport mirrors the Go struct wrapping either transactions or
pages. -/
structure ParsedReport where
  reportFormat : ReportFormat := .AnnualFormat
  transactions : List Transaction := []
  pages : PaperReport := {}
deriving DecidableEq, Repr

/-- Translation of `ReportToJson` (part_002 lines 53–80) down to the
marshalled JSON value: the `ReportJson` fields in declaration order, the
URL through `JSONURL.MarshalJSON` (its string form), and the
format-dependent union — transactions for Annual/PTR, pages for Paper,
`null` (nil slice) otherwise. -/
def ReportToJsonVal (result : SearchResult) (parsedReport : ParsedReport) : JValue :=
  .jobj [("firstname", .jstr result.firstName),
         ("lastname", .jstr result.lastName),
         ("reportname", .jstr result.reportName),
         ("reporturl", .jstr (urlString result.fileURL)),
         ("datesubmitted", .jstr (rfc3339 result.dateSubmitted)),
         ("reportformat", .jnum result.reportFormat.toInt),
         ("reportid", .jstr result.reportID),
         ("transactions",
           if result.reportFormat = .AnnualFormat ∨ result.reportFormat = .PTRFormat then
             .jarr (parsedReport.transactions.map encodeTransaction)
           else .null),
         ("pages",
           if result.reportFormat = .PaperFormat then
             .jarr (parsedReport.pages.pageURLs.map
               (fun p =>
                 match p with
                 | some u => .jstr (urlString u)
                 | none => .null))
           else .null)]

/-- Decoded form of the `ReportJson` struct; defaults are Go zero values
(`reportURL` is the nil URL inside `JSONURL`). -/
structure ReportJsonDec where
  firstName : String := ""
  lastName : String := ""
  reportName : String := ""
  reportURL : Option URLModel := none
  dateSubmitted : Date := {}
  reportFormat : Int := 0
  reportID : String := ""
  transactions : List Transaction := []
  pages : List (Option URLModel) := []
deriving DecidableEq, Repr

/-- Decode a string-typed struct field: missing or null keeps the zero
value, a non-string value is an error. -/
def decodeStringField (fields : List (String × JValue)) (k : String) : Option String :=
  match fields.lookup k with
  | none => some ""
  | some .null => some ""
  | some (.jstr s) => some s
  | some _ => none

/-- Decode the `JSONURL` field: `UnmarshalJSON` requires a string and a
parseable URL, but its value receiver means the parsed URL is assigned to
a copy — the field always keeps its zero value on success. -/
def decodeJSONURLField (fields : List (String × JValue)) (k : String) :
    Option (Option URLModel) :=
  match fields.lookup k with
  | none => some none
  | some .null => some none
  | some (.jstr s) =>
    match urlParse s with
    | some _ => some none
    | none => none
  | some _ => none

/-- Decode a `time.Time` field from its RFC 3339 string. -/
def decodeDateField (fields : List (String × JValue)) (k : String) : Option Date :=
  match fields.lookup k with
  | none => some {}
  | some .null => some {}
  | some (.jstr s) => rfc3339Parse s
  | some _ => none

/-- Decode an integer field (the report-format tag). -/
def decodeIntField (fields : List (String × JValue)) (k : String) : Option Int :=
  match fields.lookup k with
  | none => some 0
  | some .null => some 0
  | some (.jnum n) => some n
  | some _ => none

/-- Decode one Transaction; `Valid` (tag `-`) is never read and stays
false. -/
def decodeTransaction (v : JValue) : Option Transaction :=
  match v with
  | .jobj fields => do
    let date ← decodeDateField fields "date"
    let owner ← decodeStringField fields "owner"
    let ticker ← decodeStringField fields "ticker"
    let assetName ← decodeStringField fields "assetname"
    let assetType ← decodeStringField fields "assettype"
    let trType ← decodeStringField fields "type"
    let amount ← decodeStringField fields "amount"
    let comment ← decodeStringField fields "comment"
    some { date := date, owner := owner, ticker := ticker, assetName := assetName
           assetType := assetType, trType := trType, amount := amount
           comment := comment, valid := false }
  | _ => none

/-- Decode the transactions slice (null means the nil slice). -/
def decodeTransactionsField (fields : List (String × JValue)) : Option (List Transaction) :=
  match fields.lookup "transactions" with
  | none => some []
  | some .null => some []
  | some (.jarr xs) => xs.mapM decodeTransaction
  | some _ => none

/-- Decode one `pages` element: a `JSONURL`, so the no-op value-receiver
unmarshal applies to each element. -/
def decodePageElem (v : JValue) : Option (Option URLModel) :=
  match v with
  | .null => some none
  | .jstr s =>
    match urlParse s with
    | some _ => some none
    | none => none
  | _ => none

/-- Decode the pages slice. -/
def decodePagesField (fields : List (String × JValue)) : Option (List (Option URLModel)) :=
  match fields.lookup "pages" with
  | none => some []
  | some .null => some []
  | some (.jarr xs) => xs.mapM decodePageElem
  | some _ => none

/-- Model of `json.Unmarshal` into a `ReportJson`. -/
def decodeReportJson (v : JValue) : Option ReportJsonDec :=
  match v with
  | .jobj fields => do
    let firstName ← decodeStringField fields "firstname"
    let lastName ← decodeStringField fields "lastname"
    let reportName ← decodeStringField fields "reportname"
    let reportURL ← decodeJSONURLField fields "reporturl"
    let dateSubmitted ← decodeDateField fields "datesubmitted"
    let reportFormat ← decodeIntField fields "reportformat"
    let reportID ← decodeStringField fields "reportid"
    let transactions ← decodeTransactionsField fields
    let pages ← decodePagesField fields
    some { firstName := firstName, lastName := lastName, reportName := reportName
           reportURL := reportURL, dateSubmitted := dateSubmitted
           reportFormat := reportFormat, reportID := reportID
           transactions := transactions, pages := pages }
  | _ => none

/-- Field access in a marshalled JSON object. -/
def jsonField (v : JValue) (k : String) : Option JValue :=
  match v with
  | .jobj fields => fields.lookup k
  | _ => none

/-! ## Specification-side view of the classifier

The classifier claim reads the URL path as a segment list.  `mkPathC`
builds a directory-style path from its segments (with or without the
trailing slash); `classifySegs` is written from the specification's
words: after stripping the trailing empty segment, the segment preceding
the final one selects the format, with the extension-notice parent check
for `regular`; everything else is Unknown. -/

/-- Well-formed path segment: non-empty, no slash, not a dot segment. -/
def wfSeg (s : List Char) : Prop :=
  s ≠ [] ∧ '/' ∉ s ∧ s ≠ ['.'] ∧ s ≠ ['.', '.']

instance (s : List Char) : Decidable (wfSeg s) := by
  unfold wfSeg
  infer_instance

/-- Build `/seg₁/…/segₙ` (with a trailing slash when `trail`). -/
def mkPathC (segs : List (List Char)) (trail : Bool) : List Char :=
  '/' :: joinS segs ++ (if trail then ['/'] else [])

/-- Classification by segments, from the specification's words. -/
def classifySegs (segs : List (List Char)) : ReportFormat :=
  match segs.reverse with
  | _ :: p :: rest =>
    if p = "ptr".toList then .PTRFormat
    else if p = "annual".toList then .AnnualFormat
    else if p = "paper".toList then .PaperFormat
    else if p = "regular".toList then
      match rest with
      | g :: _ =>
        if g = "extension-notice".toList then .DueDateExtensionFormat else .UnknownFormat
      | [] => .UnknownFormat
    else .UnknownFormat
  | _ => .UnknownFormat

/-- Amended classification for paths without the trailing slash: the
`regular`/`extension-notice` case is never recognised there (the code's
grandparent lookup lands on `regular` itself). -/
def classifySegsNoSlash (segs : List (List Char)) : ReportFormat :=
  match segs.reverse with
  | _ :: p :: _ =>
    if p = "ptr".toList then .PTRFormat
    else if p = "annual".toList then .AnnualFormat
    else if p = "paper".toList then .PaperFormat
    else .UnknownFormat
  | _ => .UnknownFormat

/-! ## Concrete example values used in closed theorems -/

/-- Example PTR document URL. -/
def ptrURLEx : URLModel :=
  { scheme := "https", host := "efdsearch.senate.gov", path := "/search/view/ptr/abc-123/" }

/-- Example PTR search result. -/
def ptrResultEx : SearchResult :=
  { firstName := "jane", lastName := "doe", fullName := "jane doe", fileURL := ptrURLEx,
    reportName := "PTR", reportFormat := .PTRFormat, reportID := "abc-123",
    dateSubmitted := { year := 2020, month := 1, day := 2 }, valid := true }

/-- Example fully-populated transaction. -/
def ptrTransEx : Transaction :=
  { date := { year := 2020, month := 1, day := 2 }, owner := "Self", ticker := "AAPL",
    assetName := "Apple Inc.", assetType := "Stock", trType := "Purchase",
    amount := "$1,001 - $15,000", comment := "filed late", valid := true }

/-- Example parsed PTR report. -/
def ptrParsedEx : ParsedReport :=
  { reportFormat := .PTRFormat, transactions := [ptrTransEx] }

/-- Example paper document URL. -/
def paperURLEx : URLModel :=
  { scheme := "https", host := "efdsearch.senate.gov", path := "/search/print/paper/def-456/" }

/-- Example paper search result. -/
def paperResultEx : SearchResult :=
  { firstName := "john", lastName := "roe", fullName := "john roe", fileURL := paperURLEx,
    reportName := "Annual Report (Paper)", reportFormat := .PaperFormat, reportID := "def-456",
    dateSubmitted := { year := 2019, month := 3, day := 4 }, valid := true }

/-- Example first page-image URL. -/
def pageURL1 : URLModel :=
  { scheme := "https", host := "efdsearch.senate.gov", path := "/images/p1.gif" }

/-- Example second page-image URL. -/
def pageURL2 : URLModel :=
  { scheme := "https", host := "efdsearch.senate.gov", path := "/images/p2.gif" }

/-- Example parsed paper report. -/
def paperParsedEx : ParsedReport :=
  { reportFormat := .PaperFormat, pages := { pageURLs := [some pageURL1, some pageURL2] } }

/-- Example raw search-data row (5 strings) that fully parses to
`ptrResultEx`. -/
def searchRowEx : List String :=
  ["Jane", "Doe", "Jane Doe", "<a href=\"/search/view/ptr/abc-123/\">PTR</a>", "01/02/2020"]

/-- Example 9-cell PTR table row that fully parses to `ptrTransEx`. -/
def ptrRowCellsEx : List String :=
  ["", "01/02/2020", "Self", "<a href=\"/lobby\">AAPL</a>", "Apple Inc.", "Stock",
   "Purchase", "$1,001 - $15,000", "filed late"]

/-- Heading test for a Part 4a section. -/
def is4aHdr (hdr : String × List (List String)) : Bool :=
  decide (removeHTML hdr.1 = part4aTitle)

/-- Heading test for a Part 4b section. -/
def is4bHdr (hdr : String × List (List String)) : Bool :=
  decide (removeHTML hdr.1 = part4bTitle)

/-- Example Annual Part 4a row (layout: 2 date, 3 owner, 4 ticker, 5
asset name, 6 type, 7 amount, 8 comment). -/
def annual4aRowEx : List String :=
  ["", "1", "01/02/2020", "Self", "--", "Apple Inc.", "Purchase", "$1,001 - $15,000", "note a"]

/-- Example Annual Part 4b row (layout: 2 owner, 3 ticker, 4 asset name,
5 type, 6 date, 7 amount, 8 comment). -/
def annual4bRowEx : List String :=
  ["", "2", "Spouse", "--", "Microsoft Corp.", "Sale (Full)", "01/03/2020", "$15,001 - $50,000", "note b"]

/-- Example Annual document with its 4b section before its 4a section. -/
def annualDocEx : List (String × List (List String)) :=
  [(part4bTitle, [annual4bRowEx]), (part4aTitle, [annual4aRowEx])]

/-- Example segment list of a PTR document path. -/
def c3SegsEx : List (List Char) :=
  ["search".toList, "view".toList, "ptr".toList, "abc-123".toList]

/-! ## Claim C6 — serialization round trip -/

/-- Claim C6 (code_bug evidence).  Encoding a PTR report and decoding it
back reproduces the first/last name, the submission date, the format tag,
the report id, and every serialized Transaction field — but NOT the
document URL: `JSONURL.UnmarshalJSON` has a value receiver, so its
`j.URL = url` assigns to a copy and the decoded `ReportURL` keeps its nil
zero value, even though the encoded form carries the exact URL string.
For the Paper format the encoded `transactions` field is `null` and the
encoded `pages` field is exactly the source page URL strings in order,
but decoding likewise zeroes every page URL. -/
theorem c6_roundtrip_url_lost :
    urlString ptrResultEx.fileURL = "https://efdsearch.senate.gov/search/view/ptr/abc-123/"
    ∧ jsonField (ReportToJsonVal ptrResultEx ptrParsedEx) "reporturl"
        = some (JValue.jstr "https://efdsearch.senate.gov/search/view/ptr/abc-123/")
    ∧ decodeReportJson (ReportToJsonVal ptrResultEx ptrParsedEx)
        = some { firstName := "jane", lastName := "doe", reportName := "PTR",
                 reportURL := none,
                 dateSubmitted := { year := 2020, month := 1, day := 2 }, reportFormat := 2,
                 reportID := "abc-123",
                 transactions := [{ ptrTransEx with valid := false }], pages := [] }
    ∧ jsonField (ReportToJsonVal paperResultEx paperParsedEx) "transactions" = some JValue.null
    ∧ jsonField (ReportToJsonVal paperResultEx paperParsedEx) "pages"
        = some (JValue.jarr [JValue.jstr (urlString pageURL1), JValue.jstr (urlString pageURL2)])
    ∧ (decodeReportJson (ReportToJsonVal paperResultEx paperParsedEx)).map
        (fun rj => rj.pages) = some [none, none] :=
  ⟨rfl, rfl, rfl, rfl, rfl, rfl⟩

/-! ## Claim C7 — paper page collection -/

/-- Claim C7 counterexample.  A document whose single filing-page image
has no source attribute: the claim says the failure contributes no entry
to the collection, but the handler's pre-allocated slice keeps a nil slot
for it, so the collection has one (nil) entry, not zero. -/
theorem c7_counterexample_missing_src :
    HandlePaperPages [none] = [none] ∧ HandlePaperPages [none] ≠ [] := by
  decide

/-- Claim C7 as amended.  `HandlePaperSearchResult` allocates one slot per
filing-page image in document order; an image with a missing source
attribute or an unparsable URL leaves a nil slot (it is skipped without
failing the document, but its entry remains); the non-nil entries are
exactly the successfully parsed source URLs, in document order. -/
theorem c7_paper_pages_positional (imgs : List (Option String)) :
    (HandlePaperPages imgs).length = imgs.length
    ∧ HandlePaperPages imgs = imgs.map (fun img => img.bind urlParse)
    ∧ (HandlePaperPages imgs).reduceOption = imgs.reduceOption.filterMap urlParse := by
  refine ⟨by simp [HandlePaperPages], ?_, ?_⟩
  · induction imgs with
    | nil => rfl
    | cons img rest ih =>
      cases img with
      | none => simpa [HandlePaperPages, Option.bind] using ih
      | some s =>
        cases h : urlParse s <;>
          simpa [HandlePaperPages, Option.bind, h] using ih
  · induction imgs with
    | nil => rfl
    | cons img rest ih =>
      cases img with
      | none => simpa [HandlePaperPages, List.reduceOption] using ih
      | some s =>
        cases h : urlParse s <;>
          simpa [HandlePaperPages, List.reduceOption, h] using ih

/-! ## Claim C8 — lazy authentication on fetch paths -/

/-- Claim C8 counterexample.  With the authenticated flag unset, the paged
search issues its POST with no disclaimer handshake anywhere in its trace
(and leaves the flag unset), refuting "every fetch path checks the flag
and self-heals" for the search-data path. -/
theorem c8_counterexample_search_no_handshake :
    (searchReportDataPagedRun (fun _ => []) { authed := false }).2
        = [{ kind := .searchDataPost, client := .defaultClient }]
    ∧ ((searchReportDataPagedRun (fun _ => []) { authed := false }).2.filter
        (fun r => r.kind = ReqKind.disclaimerPost)) = []
    ∧ (searchReportDataPagedRun (fun _ => []) { authed := false }).1.authed = false := by
  decide

/-- Claim C8 as amended.  The three document handlers check the session's
authenticated flag: when it is unset they run the disclaimer handshake
exactly once before their document fetch and mark the session
authenticated; when set they fetch directly.  The paged search request,
however, never checks the flag and issues its POST with no handshake. -/
theorem c8_auth_check_paths (net : ReqKind → List String) (jar : List String) :
    (HandlePTRSearchResultRun net { authed := false, jar := jar }).2
        = acceptDisclaimerReqs ++ [{ kind := .documentGet, client := .sessionClient }]
    ∧ (HandlePTRSearchResultRun net { authed := false, jar := jar }).1.authed = true
    ∧ (HandlePTRSearchResultRun net { authed := true, jar := jar }).2
        = [{ kind := .documentGet, client := .sessionClient }]
    ∧ (HandleAnnualSearchResultRun net { authed := false, jar := jar }).2
        = acceptDisclaimerReqs ++ [{ kind := .documentGet, client := .sessionClient }]
    ∧ (HandleAnnualSearchResultRun net { authed := true, jar := jar }).2
        = [{ kind := .documentGet, client := .sessionClient }]
    ∧ (HandlePaperSearchResultRun net { authed := false, jar := jar }).2
        = acceptDisclaimerReqs ++ [{ kind := .documentGet, client := .sessionClient }]
    ∧ (HandlePaperSearchResultRun net { authed := true, jar := jar }).2
        = [{ kind := .documentGet, client := .sessionClient }]
    ∧ (∀ a, (searchReportDataPagedRun net { authed := a, jar := jar }).2
        = [{ kind := .searchDataPost, client := .defaultClient }])
    ∧ (acceptDisclaimerReqs.filter (fun r => r.kind = ReqKind.disclaimerPost)).length = 1 := by
  refine ⟨rfl, rfl, rfl, rfl, rfl, rfl, rfl, fun a => rfl, rfl⟩

/-! ## Claim C10 — search bypasses the session client -/

/-- Claim C10.  The search-data POST is issued through the process-wide
default HTTP client: its trace is the single default-client request, the
session state (cookie jar and flag) is untouched, and no session cookie
is sent with it; the document handlers' fetches, by contrast, all go
through the session client and carry (and may grow) the session's jar. -/
theorem c10_search_default_client_frame (net : ReqKind → List String) (s : Session) :
    (searchReportDataPagedRun net s).2 = [{ kind := .searchDataPost, client := .defaultClient }]
    ∧ (searchReportDataPagedRun net s).1 = s
    ∧ cookiesSentWith s { kind := .searchDataPost, client := .defaultClient } = []
    ∧ (documentHandlerRun net { authed := true, jar := s.jar }).2
        = [{ kind := .documentGet, client := .sessionClient }]
    ∧ cookiesSentWith s { kind := .documentGet, client := .sessionClient } = s.jar
    ∧ (documentHandlerRun net { authed := true, jar := s.jar }).1.jar
        = s.jar ++ net .documentGet := by
  refine ⟨rfl, ?_, rfl, rfl, rfl, rfl⟩
  simp [searchReportDataPagedRun, applyReq]

/-! ## Shared lemmas about the pager's row processing -/

/-- A row that fully parses is marked valid. -/
theorem parseSearchRow_valid (pd : String → Option Date) (row : List String) (r : SearchResult)
    (h : parseSearchRow pd row = some r) : r.valid = true := by
  unfold parseSearchRow at h
  split at h
  · split at h
    · cases h
    · dsimp only at h
      split at h
      · cases h
      · split at h
        · cases h
        · cases h; rfl
  · cases h

/-- Zero-valued slots never pass the validity filter. -/
theorem filter_valid_defaults (rest : List (List String)) :
    (rest.map (fun _ => ({} : SearchResult))).filter (fun record => record.valid) = [] := by
  induction rest with
  | nil => rfl
  | cons _ t ih => simp [ih]

/-! ## Claim C2 — row-level failure handling in a page -/

/-- Claim C2 counterexample.  A page whose first row is malformed (4
elements) followed by a row that fully parses: the claim says the good
row still appears, but the loop `break`s at the malformed row and the
page yields nothing. -/
theorem c2_counterexample_row_break :
    searchReportDataPagedRows parseDateUS
        [["a", "b", "c", "d"],
         ["Jane", "Doe", "Jane Doe", "<a href=\"/search/view/ptr/abc-123/\">PTR</a>", "01/02/2020"]]
      = []
    ∧ (parseSearchRow parseDateUS
        ["Jane", "Doe", "Jane Doe", "<a href=\"/search/view/ptr/abc-123/\">PTR</a>", "01/02/2020"]).isSome
      = true := by
  decide

/-- Claim C2 as amended.  A failing row (wrong element count, failed
date or anchor parse, or empty href) does not continue with the next
row: it `break`s the page's loop.  The page's result set is exactly the
longest fully-parsing prefix of its rows, in order; the failing row and
every row after it are dropped silently. -/
theorem c2_page_prefix_processing (pd : String → Option Date) (data : List (List String)) :
    searchReportDataPagedRows pd data =
      (data.takeWhile (fun row => (parseSearchRow pd row).isSome)).filterMap (parseSearchRow pd) := by
  induction data with
  | nil => rfl
  | cons row rest ih =>
    unfold searchReportDataPagedRows at ih ⊢
    unfold searchRowsLoop
    cases h : parseSearchRow pd row with
    | some r =>
      have hv := parseSearchRow_valid pd row r h
      simp [List.takeWhile_cons, h, hv, ih]
    | none =>
      simp [List.takeWhile_cons, h, filter_valid_defaults]

/-! ## Claim C1 — pagination -/

/-- Page-loop characterisation: from any `start`, the loop issues
`max 1 ⌈(R − start)/100⌉` requests at offsets advancing by 100 and
concatenates the pages' row results in request order. -/
theorem searchLoopGo_spec (pd : String → Option Date) (R : Int)
    (data : Nat → List (List String)) (hR : 0 ≤ R) :
    ∀ (start : Nat),
      (searchLoopGo pd R data start).2 = max 1 ((R.toNat - start + 99) / 100)
      ∧ (searchLoopGo pd R data start).1 =
          ((List.range (max 1 ((R.toNat - start + 99) / 100))).map
            (fun i => searchReportDataPagedRows pd (data (start + 100 * i)))).flatten := by
  have H : ∀ (n : Nat) (s : Nat), (R - s).toNat ≤ n →
      (searchLoopGo pd R data s).2 = max 1 ((R.toNat - s + 99) / 100)
      ∧ (searchLoopGo pd R data s).1 =
          ((List.range (max 1 ((R.toNat - s + 99) / 100))).map
            (fun i => searchReportDataPagedRows pd (data (s + 100 * i)))).flatten := by
    intro n
    induction n with
    | zero =>
      intro s hs
      have hcond : ¬(R - s - 100 > 0) := by omega
      have h1 : R.toNat - s = 0 := by omega
      rw [searchLoopGo, if_neg hcond]
      constructor
      · simp [h1]
      · simp [h1, List.range_succ]
    | succ n ih =>
      intro s hs
      rw [searchLoopGo]
      by_cases hcond : R - s - 100 > 0
      · rw [if_pos hcond]
        dsimp only
        obtain ⟨ih1, ih2⟩ := ih (s + 100) (by omega)
        have ha : 100 ≤ R.toNat - (s + 100) + 99 := by omega
        have hb : R.toNat - s + 99 = R.toNat - (s + 100) + 99 + 100 := by omega
        have hdiv : (R.toNat - s + 99) / 100 = (R.toNat - (s + 100) + 99) / 100 + 1 := by
          rw [hb, Nat.add_div_right _ (by norm_num)]
        have hge1 : 1 ≤ (R.toNat - (s + 100) + 99) / 100 := by
          rw [Nat.one_le_div_iff (by norm_num)]; exact ha
        have hmaxr : max 1 ((R.toNat - (s + 100) + 99) / 100)
            = (R.toNat - (s + 100) + 99) / 100 := Nat.max_eq_right hge1
        have hmax : max 1 ((R.toNat - s + 99) / 100)
            = (R.toNat - (s + 100) + 99) / 100 + 1 := by
          rw [hdiv]; exact Nat.max_eq_right (by omega)
        constructor
        · simp only [ih1, hmaxr, hmax]
        · rw [hmax, ih2, hmaxr, List.range_succ_eq_map]
          simp only [List.map_cons, List.flatten_cons, Nat.mul_zero, Nat.add_zero]
          rw [List.map_map]
          refine congrArg (fun l => searchReportDataPagedRows pd (data s) ++ List.flatten l) ?_
          refine List.map_congr_left (fun i _ => ?_)
          have hx : s + 100 + 100 * i = s + 100 * (i + 1) := by ring
          simp [Function.comp_apply, hx, Nat.succ_eq_add_one]
      · rw [if_neg hcond]
        dsimp only
        have h2 : R.toNat - s ≤ 100 := by omega
        have hle : (R.toNat - s + 99) / 100 ≤ 1 := by
          calc (R.toNat - s + 99) / 100 ≤ 199 / 100 := Nat.div_le_div_right (by omega)
          _ = 1 := by norm_num
        have hmax : max 1 ((R.toNat - s + 99) / 100) = 1 := Nat.max_eq_left hle
        constructor
        · simp [hmax]
        · simp [hmax, List.range_succ]
  intro start
  exact H ((R - start).toNat) start le_rfl

/-- Claim C1 counterexample.  With `recordsTotal = 0` the loop still
issues its first request (the remainder starts at 1), so the request
count is 1 while `⌈0/100⌉ = 0`: the claimed "exactly ⌈R/L⌉ requests"
fails at R = 0. -/
theorem c1_counterexample_zero_records :
    (SearchReportDataC parseDateUS 0 (fun _ => [])).2 = 1
    ∧ (((0 : Int).toNat + 99) / 100 : Nat) = 0 := by
  constructor
  · rw [SearchReportDataC, searchLoopGo]
    norm_num
  · rfl

/-- Claim C1 as amended.  For a constant `recordsTotal` R ≥ 0 and page
size 100, `SearchReportData` issues exactly `max 1 ⌈R/100⌉` page
requests — one request is always issued, even when R = 0 — with `start`
advancing by 100 each request until `R − start − 100 ≤ 0`, and returns
the concatenation of every page's valid rows in request order. -/
theorem c1_pagination_request_count (pd : String → Option Date) (R : Int)
    (data : Nat → List (List String)) (hR : 0 ≤ R) :
    (SearchReportDataC pd R data).2 = max 1 ((R.toNat + 99) / 100)
    ∧ (SearchReportDataC pd R data).1 =
        ((List.range (max 1 ((R.toNat + 99) / 100))).map
          (fun i => searchReportDataPagedRows pd (data (100 * i)))).flatten := by
  have h := searchLoopGo_spec pd R data hR 0
  simpa using h

/-- Claim C1 witness: at R = 250 the pager issues exactly 3 requests. -/
theorem c1_pagination_request_count_witness :
    0 ≤ (250 : Int) ∧ (SearchReportDataC parseDateUS 250 (fun _ => [])).2 = 3 := by
  refine ⟨by norm_num, ?_⟩
  have h := (c1_pagination_request_count parseDateUS 250 (fun _ => []) (by norm_num)).1
  simpa using h

/-! ## Claim C4 — the PTR row mapping -/

/-- Core characterisation of a 9-cell PTR row: the short-circuiting cell
loop agrees with the straight-line parse; a row whose parse fails is
never marked valid. -/
theorem handlePTRRow_parse (pd : String → Option Date) (tds : List String) (h9 : tds.length = 9) :
    (∀ t, parsePTRRow pd tds = some t → HandlePTRRow pd tds = t)
    ∧ (parsePTRRow pd tds = none → (HandlePTRRow pd tds).valid = false) := by
  rcases tds with _ | ⟨c0, _ | ⟨c1, _ | ⟨c2, _ | ⟨c3, _ | ⟨c4, _ | ⟨c5, _ | ⟨c6, _ | ⟨c7, _ | ⟨c8, rest⟩⟩⟩⟩⟩⟩⟩⟩⟩ <;>
    simp only [List.length_nil, List.length_cons] at h9 <;> try omega
  have hrest : rest = [] := by
    have : rest.length = 0 := by omega
    exact List.length_eq_zero.mp this
  subst hrest
  rcases hd : pd (removeHTML c1) with _ | d
  · constructor
    · intro t ht
      simp [parsePTRRow, hd] at ht
    · intro _
      simp [HandlePTRRow, runCells, ptrRowStep, handleTransactionCell, hd]
  · by_cases hs : stripHTML c3 = "--"
    · constructor
      · intro t ht
        simp [parsePTRRow, parseTicker, hd, hs] at ht
        subst ht
        simp [HandlePTRRow, runCells, ptrRowStep, handleTransactionCell, hd, hs]
      · intro hnone
        simp [parsePTRRow, parseTicker, hd, hs] at hnone
    · by_cases htext : (parseAnchor (stripHTML c3)).text = ""
      · constructor
        · intro t ht
          simp [parsePTRRow, parseTicker, hd, hs, htext] at ht
        · intro _
          simp [HandlePTRRow, runCells, ptrRowStep, handleTransactionCell, hd, hs, htext]
      · constructor
        · intro t ht
          simp [parsePTRRow, parseTicker, hd, hs, htext] at ht
          subst ht
          simp [HandlePTRRow, runCells, ptrRowStep, handleTransactionCell, hd, hs, htext]
        · intro hnone
          simp [parsePTRRow, parseTicker, hd, hs, htext] at hnone

/-- Claim C4.  For every 9-cell PTR table row: a row whose columns all
parse produces exactly one valid Transaction whose fields follow the
column mapping — 0 ignored, 1 date (remove + date-parse), 2 owner
(remove), 3 ticker (strip; the `--` sentinel passes through verbatim with
no anchor parsing, otherwise the anchor's link text is kept and empty
link text fails), 4 asset name, 5 asset type, 6 transaction type, 7
amount, 8 comment — and a failure in any column before 8 short-circuits
the row, which is never marked valid. -/
theorem c4_ptr_row_mapping (pd : String → Option Date) (tds : List String)
    (h9 : tds.length = 9) :
    (∀ t, parsePTRRow pd tds = some t →
        HandlePTRRow pd tds = t
        ∧ t.valid = true
        ∧ pd (removeHTML (tds.getD 1 "")) = some t.date
        ∧ t.owner = removeHTML (tds.getD 2 "")
        ∧ (stripHTML (tds.getD 3 "") = "--" → t.ticker = "--")
        ∧ (stripHTML (tds.getD 3 "") ≠ "--" →
            t.ticker = (parseAnchor (stripHTML (tds.getD 3 ""))).text ∧ t.ticker ≠ "")
        ∧ t.assetName = removeHTML (tds.getD 4 "")
        ∧ t.assetType = removeHTML (tds.getD 5 "")
        ∧ t.trType = removeHTML (tds.getD 6 "")
        ∧ t.amount = removeHTML (tds.getD 7 "")
        ∧ t.comment = removeHTML (tds.getD 8 ""))
    ∧ (parsePTRRow pd tds = none → (HandlePTRRow pd tds).valid = false) := by
  refine ⟨?_, (handlePTRRow_parse pd tds h9).2⟩
  intro t ht
  refine ⟨(handlePTRRow_parse pd tds h9).1 t ht, ?_⟩
  rcases tds with _ | ⟨c0, _ | ⟨c1, _ | ⟨c2, _ | ⟨c3, _ | ⟨c4, _ | ⟨c5, _ | ⟨c6, _ | ⟨c7, _ | ⟨c8, rest⟩⟩⟩⟩⟩⟩⟩⟩⟩ <;>
    simp only [List.length_nil, List.length_cons] at h9 <;> try omega
  have hrest : rest = [] := by
    have : rest.length = 0 := by omega
    exact List.length_eq_zero.mp this
  subst hrest
  simp only [parsePTRRow] at ht
  rcases hd : pd (removeHTML c1) with _ | d <;> rw [hd] at ht
  · cases ht
  · rcases htk : parseTicker (stripHTML c3) with _ | tk <;> rw [htk] at ht
    · cases ht
    · cases ht
      unfold parseTicker at htk
      by_cases hs : stripHTML c3 = "--"
      · rw [if_pos hs] at htk
        cases htk
        simp [List.getD, hd, hs]
      · rw [if_neg hs] at htk
        dsimp only at htk
        by_cases htext : (parseAnchor (stripHTML c3)).text = ""
        · rw [if_pos htext] at htk; cases htk
        · rw [if_neg htext] at htk
          cases htk
          simp [List.getD, hd, hs, htext]

/-- Claim C4 witness: a concrete fully-parsing 9-cell row yields its
valid Transaction. -/
theorem c4_ptr_row_mapping_witness :
    ptrRowCellsEx.length = 9
    ∧ HandlePTRRow parseDateUS ptrRowCellsEx = ptrTransEx
    ∧ ptrTransEx.valid = true := by
  refine ⟨rfl, ?_, rfl⟩
  exact ((c4_ptr_row_mapping parseDateUS ptrRowCellsEx rfl).1 ptrTransEx (by decide)).1

/-! ## Claim C9 — only fully-parsed units are returned -/

/-- A row slot that ends up valid must have fully parsed. -/
theorem handlePTRRow_valid_parse (pd : String → Option Date) (tds : List String)
    (hv : (HandlePTRRow pd tds).valid = true) :
    tds.length = 9 ∧ parsePTRRow pd tds = some (HandlePTRRow pd tds) := by
  by_cases h9 : tds.length = 9
  · refine ⟨h9, ?_⟩
    rcases hp : parsePTRRow pd tds with _ | t
    · have := (handlePTRRow_parse pd tds h9).2 hp
      rw [this] at hv
      cases hv
    · have heq := (handlePTRRow_parse pd tds h9).1 t hp
      simp [heq, hp]
  · unfold HandlePTRRow at hv
    rw [if_pos h9] at hv
    cases hv

/-- Claim C9.  Every SearchResult the pager returns and every Transaction
the PTR table extractor returns has its validity flag true and arises
from a row whose required fields all parsed; no partially-parsed unit is
ever returned with default field values. -/
theorem c9_outputs_valid_fully_parsed :
    (∀ (pd : String → Option Date) (data : List (List String)) (r : SearchResult),
        r ∈ searchReportDataPagedRows pd data →
          r.valid = true ∧ ∃ row ∈ data, parseSearchRow pd row = some r)
    ∧ (∀ (pd : String → Option Date) (rows : List (List String)) (t : Transaction),
        t ∈ HandlePTRRows pd rows →
          t.valid = true ∧ ∃ tds ∈ rows, tds.length = 9 ∧ parsePTRRow pd tds = some t) := by
  constructor
  · intro pd data r hr
    unfold searchReportDataPagedRows at hr
    have hv : r.valid = true := (List.mem_filter.mp hr).2
    have hmem := (List.mem_filter.mp hr).1
    refine ⟨hv, ?_⟩
    clear hr
    induction data with
    | nil => simp [searchRowsLoop] at hmem
    | cons row rest ih =>
      unfold searchRowsLoop at hmem
      rcases hp : parseSearchRow pd row with _ | r' <;> rw [hp] at hmem
      · rcases List.mem_cons.mp hmem with h | h
        · subst h; cases hv
        · obtain ⟨x, _, hxx⟩ := List.mem_map.mp h
          rw [← hxx] at hv
          cases hv
      · rcases List.mem_cons.mp hmem with h | h
        · subst h
          exact ⟨row, List.mem_cons_self _ _, hp⟩
        · obtain ⟨rr, hrr, hpp⟩ := ih h
          exact ⟨rr, List.mem_cons_of_mem _ hrr, hpp⟩
  · intro pd rows t ht
    unfold HandlePTRRows at ht
    have hv : t.valid = true := (List.mem_filter.mp ht).2
    have hmem := (List.mem_filter.mp ht).1
    obtain ⟨tds, htds, heq⟩ := List.mem_map.mp hmem
    have hvrun : (HandlePTRRow pd tds).valid = true := by rw [heq]; exact hv
    obtain ⟨h9, hp⟩ := handlePTRRow_valid_parse pd tds hvrun
    rw [heq] at hp
    exact ⟨hv, tds, htds, h9, hp⟩

/-- Claim C9 witness: concrete pager and extractor outputs are valid and
trace back to fully-parsed rows. -/
theorem c9_outputs_valid_fully_parsed_witness :
    (ptrResultEx.valid = true
      ∧ ∃ row ∈ [searchRowEx], parseSearchRow parseDateUS row = some ptrResultEx)
    ∧ (ptrTransEx.valid = true
      ∧ ∃ tds ∈ [ptrRowCellsEx], tds.length = 9 ∧ parsePTRRow parseDateUS tds = some ptrTransEx) := by
  constructor
  · refine c9_outputs_valid_fully_parsed.1 parseDateUS [searchRowEx] ptrResultEx ?_
    have h : searchReportDataPagedRows parseDateUS [searchRowEx] = [ptrResultEx] := by decide
    rw [h]
    exact List.mem_singleton_self _
  · refine c9_outputs_valid_fully_parsed.2 parseDateUS [ptrRowCellsEx] ptrTransEx ?_
    have h : HandlePTRRows parseDateUS [ptrRowCellsEx] = [ptrTransEx] := by decide
    rw [h]
    exact List.mem_singleton_self _

/-! ## Claim C5 — Annual merge order and the missing asset type -/

/-- Finding the first match is reading the filtered list's head. -/
theorem find?_eq_head?_filter {α : Type} (p : α → Bool) (l : List α) :
    l.find? p = (l.filter p).head? := by
  induction l with
  | nil => rfl
  | cons a t ih =>
    cases h : p a
    · rw [List.find?_cons_of_neg _ (by simp [h]), List.filter_cons_of_neg (by simp [h]), ih]
    · rw [List.find?_cons_of_pos _ h, List.filter_cons_of_pos h]
      rfl

/-- When the filter is a singleton, searching from the back finds it. -/
theorem find?_reverse_of_filter_singleton {α : Type} (p : α → Bool) (l : List α) (x : α)
    (h : l.filter p = [x]) : l.reverse.find? p = some x := by
  rw [find?_eq_head?_filter, List.filter_reverse, h]
  rfl

/-- The heading fold keeps, per part, the last matching section's rows
(Go reassigns the slice on every matching heading). -/
theorem annualFold_spec (pd : String → Option Date) (doc : List (String × List (List String))) :
    ∀ (a b : List Transaction),
      doc.foldl
        (fun (st : List Transaction × List Transaction) hdr =>
          let title := removeHTML hdr.1
          if title = part4aTitle then (hdr.2.map (HandleAnnual4aRow pd), st.2)
          else if title = part4bTitle then (st.1, hdr.2.map (HandleAnnual4bRow pd))
          else st)
        (a, b)
      = ((match doc.reverse.find? is4aHdr with
          | some h => h.2.map (HandleAnnual4aRow pd)
          | none => a),
         (match doc.reverse.find? is4bHdr with
          | some h => h.2.map (HandleAnnual4bRow pd)
          | none => b)) := by
  induction doc with
  | nil => intro a b; rfl
  | cons hdr rest ih =>
    intro a b
    simp only [List.foldl_cons, List.reverse_cons, List.find?_append]
    by_cases h4a : removeHTML hdr.1 = part4aTitle
    · have h4b : ¬(removeHTML hdr.1 = part4bTitle) := by
        rw [h4a]; intro hcontra
        exact absurd hcontra (by decide)
      rw [if_pos h4a]
      rw [ih]
      have ha : [hdr].find? is4aHdr = some hdr := by simp [List.find?_cons, is4aHdr, h4a]
      have hb : [hdr].find? is4bHdr = none := by simp [List.find?_cons, is4bHdr, h4b]
      rw [ha, hb]
      cases hfa : rest.reverse.find? is4aHdr <;> cases hfb : rest.reverse.find? is4bHdr <;>
        simp [Option.or]
    · rw [if_neg h4a]
      by_cases h4b : removeHTML hdr.1 = part4bTitle
      · rw [if_pos h4b]
        rw [ih]
        have ha : [hdr].find? is4aHdr = none := by simp [List.find?_cons, is4aHdr, h4a]
        have hb : [hdr].find? is4bHdr = some hdr := by simp [List.find?_cons, is4bHdr, h4b]
        rw [ha, hb]
        cases hfa : rest.reverse.find? is4aHdr <;> cases hfb : rest.reverse.find? is4bHdr <;>
          simp [Option.or]
      · rw [if_neg h4b]
        rw [ih]
        have ha : [hdr].find? is4aHdr = none := by simp [List.find?_cons, is4aHdr, h4a]
        have hb : [hdr].find? is4bHdr = none := by simp [List.find?_cons, is4bHdr, h4b]
        rw [ha, hb]
        cases hfa : rest.reverse.find? is4aHdr <;> cases hfb : rest.reverse.find? is4bHdr <;>
          simp [Option.or]

/-- Closed form of `HandleAnnualRows`: the last 4a section's rows, then
the last 4b section's, each filtered to valid. -/
theorem handleAnnualRows_eq (pd : String → Option Date)
    (doc : List (String × List (List String))) :
    HandleAnnualRows pd doc =
      ((match doc.reverse.find? is4aHdr with
        | some h => h.2.map (HandleAnnual4aRow pd)
        | none => ([] : List Transaction)).filter (fun record => record.valid))
        ++ ((match doc.reverse.find? is4bHdr with
          | some h => h.2.map (HandleAnnual4bRow pd)
          | none => ([] : List Transaction)).filter (fun record => record.valid)) := by
  unfold HandleAnnualRows
  rw [annualFold_spec]
  rw [List.filter_append]

/-- Every cell kind except the asset-type cell leaves the asset-type
field unchanged. -/
theorem handleTransactionCell_assetType (pd : String → Option Date) (tr : Transaction)
    (t : String) (ct : CellType) (hct : ct ≠ CellType.assetTypeCell) :
    ((handleTransactionCell pd tr t ct).1).assetType = tr.assetType := by
  cases ct
  case assetTypeCell => exact absurd rfl hct
  case trDateCell =>
    simp only [handleTransactionCell]
    rcases pd (removeHTML t) with _ | d <;> rfl
  case tickerCell =>
    simp only [handleTransactionCell]
    split
    · rfl
    · split <;> rfl
  all_goals rfl

/-- The 4a layout maps no column to the asset type. -/
theorem runCells4a_assetType (pd : String → Option Date) :
    ∀ (tds : List String) (tr : Transaction) (j : Nat),
      (runCells (annual4aRowStep pd) tr j tds).assetType = tr.assetType := by
  intro tds
  induction tds with
  | nil => intro tr j; rfl
  | cons t ts ih =>
    intro tr j
    have hstep : ((annual4aRowStep pd tr j t).1).assetType = tr.assetType := by
      rcases j with _ | _ | _ | _ | _ | _ | _ | _ | _ | j <;>
        simp only [annual4aRowStep] <;>
        first
        | rfl
        | exact handleTransactionCell_assetType pd tr t _ (by simp)
    unfold runCells
    dsimp only
    split
    · rw [ih, hstep]
    · exact hstep

/-- The 4b layout maps no column to the asset type. -/
theorem runCells4b_assetType (pd : String → Option Date) :
    ∀ (tds : List String) (tr : Transaction) (j : Nat),
      (runCells (annual4bRowStep pd) tr j tds).assetType = tr.assetType := by
  intro tds
  induction tds with
  | nil => intro tr j; rfl
  | cons t ts ih =>
    intro tr j
    have hstep : ((annual4bRowStep pd tr j t).1).assetType = tr.assetType := by
      rcases j with _ | _ | _ | _ | _ | _ | _ | _ | _ | j <;>
        simp only [annual4bRowStep] <;>
        first
        | rfl
        | exact handleTransactionCell_assetType pd tr t _ (by simp)
    unfold runCells
    dsimp only
    split
    · rw [ih, hstep]
    · exact hstep

/-- An Annual 4a row always has an empty asset type. -/
theorem handleAnnual4aRow_assetType (pd : String → Option Date) (tds : List String) :
    (HandleAnnual4aRow pd tds).assetType = "" := by
  unfold HandleAnnual4aRow
  split
  · rfl
  · rw [runCells4a_assetType]

/-- An Annual 4b row always has an empty asset type. -/
theorem handleAnnual4bRow_assetType (pd : String → Option Date) (tds : List String) :
    (HandleAnnual4bRow pd tds).assetType = "" := by
  unfold HandleAnnual4bRow
  split
  · rfl
  · rw [runCells4b_assetType]

/-- Claim C5.  For an Annual document with exactly one "Part 4a. Periodic
Transaction Report Summary" section and one "Part 4b. Transactions"
section (in either document order), the output places all 4a-derived
valid Transactions before all 4b-derived valid Transactions, each group
in document row order, and every output Transaction's asset-type field is
empty because neither layout maps an asset-type column. -/
theorem c5_annual_merge_order (pd : String → Option Date)
    (doc : List (String × List (List String)))
    (ta : String) (ra : List (List String)) (tb : String) (rb : List (List String))
    (h4a : doc.filter is4aHdr = [(ta, ra)])
    (h4b : doc.filter is4bHdr = [(tb, rb)]) :
    HandleAnnualRows pd doc =
      (ra.map (HandleAnnual4aRow pd)).filter (fun record => record.valid)
        ++ (rb.map (HandleAnnual4bRow pd)).filter (fun record => record.valid)
    ∧ ∀ t ∈ HandleAnnualRows pd doc, t.assetType = "" := by
  have hmain : HandleAnnualRows pd doc =
      (ra.map (HandleAnnual4aRow pd)).filter (fun record => record.valid)
        ++ (rb.map (HandleAnnual4bRow pd)).filter (fun record => record.valid) := by
    rw [handleAnnualRows_eq]
    rw [find?_reverse_of_filter_singleton _ _ _ h4a, find?_reverse_of_filter_singleton _ _ _ h4b]
  refine ⟨hmain, ?_⟩
  intro t ht
  rw [hmain] at ht
  rcases List.mem_append.mp ht with h | h
  · obtain ⟨cells, _, heq⟩ := List.mem_map.mp (List.mem_filter.mp h).1
    rw [← heq]
    exact handleAnnual4aRow_assetType pd cells
  · obtain ⟨cells, _, heq⟩ := List.mem_map.mp (List.mem_filter.mp h).1
    rw [← heq]
    exact handleAnnual4bRow_assetType pd cells

/-- Claim C5 witness: a concrete document whose 4b section precedes its
4a section still yields the 4a rows first. -/
theorem c5_annual_merge_order_witness :
    annualDocEx.filter is4aHdr = [(part4aTitle, [annual4aRowEx])]
    ∧ HandleAnnualRows parseDateUS annualDocEx =
        ([annual4aRowEx].map (HandleAnnual4aRow parseDateUS)).filter (fun record => record.valid)
          ++ ([annual4bRowEx].map (HandleAnnual4bRow parseDateUS)).filter (fun record => record.valid) := by
  refine ⟨by decide, ?_⟩
  exact (c5_annual_merge_order parseDateUS annualDocEx part4aTitle [annual4aRowEx]
    part4bTitle [annual4bRowEx] (by decide) (by decide)).1

/-! ## Claim C3 — the report-format classifier

The classifier claim is settled over directory-style paths built from
well-formed segments.  The development models `path.Clean` component-wise
and proves that on such paths the code's `Split`/`Dir`/`Base` plumbing
computes exactly the segment-preceding-the-final-one dispatch the
specification describes — except that for paths WITHOUT the trailing
slash the `extension-notice`/`regular` case is never recognised, because
`path.Dir` of a slash-terminated directory string only strips the
trailing slash, so the code compares `regular` (not `extension-notice`)
against `extension-notice`. -/

theorem takeWhile_append_done (p : Char → Bool) (l₁ : List Char) (b : Char) (l₂ : List Char)
    (h1 : ∀ a ∈ l₁, p a = true) (hb : p b = false) :
    (l₁ ++ b :: l₂).takeWhile p = l₁ := by
  induction l₁ with
  | nil => simp [List.takeWhile_cons, hb]
  | cons c t ih =>
    have hc : p c = true := h1 c (by simp)
    simp only [List.cons_append, List.takeWhile_cons, hc, if_pos rfl]
    rw [ih (fun a ha => h1 a (by simp [ha]))]
    simp

theorem takeWhile_all (p : Char → Bool) (l : List Char) (h : ∀ a ∈ l, p a = true) :
    l.takeWhile p = l := by
  induction l with
  | nil => rfl
  | cons c t ih =>
    simp only [List.takeWhile_cons, h c (by simp)]
    rw [ih (fun a ha => h a (by simp [ha]))]
    simp

theorem joinS_append_singleton (init : List (List Char)) (l : List Char) (h : init ≠ []) :
    joinS (init ++ [l]) = joinS init ++ '/' :: l := by
  induction init with
  | nil => exact absurd rfl h
  | cons a t ih =>
    cases t with
    | nil => rfl
    | cons b r =>
      have : joinS ((a :: b :: r) ++ [l]) = a ++ '/' :: joinS ((b :: r) ++ [l]) := rfl
      rw [this, ih (by simp)]
      show a ++ '/' :: (joinS (b :: r) ++ '/' :: l) = (a ++ '/' :: joinS (b :: r)) ++ '/' :: l
      simp

theorem splitSlash_nil : splitSlash [] = [[]] := rfl

theorem splitSlash_cons (c : Char) (rest : List Char) :
    splitSlash (c :: rest) =
      (if c = '/' then [] :: splitSlash rest
       else
         match splitSlash rest with
         | s :: ss => (c :: s) :: ss
         | [] => [[c]]) := rfl

theorem splitSlash_ne_nil (l : List Char) : splitSlash l ≠ [] := by
  induction l with
  | nil => simp [splitSlash_nil]
  | cons c rest ih =>
    rw [splitSlash_cons]
    split
    · simp
    · rcases h : splitSlash rest with _ | ⟨s, ss⟩
      · simp
      · simp

theorem splitSlash_noslash (s : List Char) (h : '/' ∉ s) : splitSlash s = [s] := by
  induction s with
  | nil => rfl
  | cons c rest ih =>
    rw [splitSlash_cons]
    have hc : ¬(c = '/') := by
      intro he; exact h (by simp [he])
    rw [if_neg hc]
    rw [ih (fun hm => h (by simp [hm]))]

theorem splitSlash_append (s : List Char) (l : List Char) (hd : List Char) (tl : List (List Char))
    (hs : '/' ∉ s) (hl : splitSlash l = hd :: tl) :
    splitSlash (s ++ l) = (s ++ hd) :: tl := by
  induction s with
  | nil => simpa using hl
  | cons c rest ih =>
    have hc : ¬(c = '/') := by
      intro he; exact hs (by simp [he])
    have hrest : '/' ∉ rest := fun hm => hs (by simp [hm])
    rw [List.cons_append, splitSlash_cons, if_neg hc, ih hrest]
    rfl

theorem splitSlash_slashcons (l : List Char) :
    splitSlash ('/' :: l) = [] :: splitSlash l := by
  rw [splitSlash_cons, if_pos rfl]

theorem splitSlash_join (segs : List (List Char)) (hne : segs ≠ [])
    (hwf : ∀ s ∈ segs, '/' ∉ s) :
    splitSlash (joinS segs) = segs := by
  induction segs with
  | nil => exact absurd rfl hne
  | cons s t ih =>
    cases t with
    | nil => exact splitSlash_noslash s (hwf s (by simp))
    | cons b r =>
      have hstep : joinS (s :: b :: r) = s ++ '/' :: joinS (b :: r) := rfl
      rw [hstep]
      have hrec : splitSlash (joinS (b :: r)) = b :: r :=
        ih (by simp) (fun x hx => hwf x (by simp [hx]))
      rw [splitSlash_append s ('/' :: joinS (b :: r)) [] (splitSlash (joinS (b :: r)))
        (hwf s (by simp)) (splitSlash_slashcons _)]
      rw [hrec]
      simp

theorem splitSlash_join_trail (segs : List (List Char)) (hne : segs ≠ [])
    (hwf : ∀ s ∈ segs, '/' ∉ s) :
    splitSlash (joinS segs ++ ['/']) = segs ++ [[]] := by
  induction segs with
  | nil => exact absurd rfl hne
  | cons s t ih =>
    cases t with
    | nil =>
      have h1 : splitSlash (['/'] : List Char) = [[], []] := rfl
      have := splitSlash_append s ['/'] [] [[]] (hwf s (by simp)) h1
      simpa using this
    | cons b r =>
      have hstep : joinS (s :: b :: r) ++ ['/'] = s ++ '/' :: (joinS (b :: r) ++ ['/']) := by
        show (s ++ '/' :: joinS (b :: r)) ++ ['/'] = _
        simp
      rw [hstep]
      have hrec : splitSlash (joinS (b :: r) ++ ['/']) = (b :: r) ++ [[]] :=
        ih (by simp) (fun x hx => hwf x (by simp [hx]))
      rw [splitSlash_append s ('/' :: (joinS (b :: r) ++ ['/'])) [] (splitSlash (joinS (b :: r) ++ ['/']))
        (hwf s (by simp)) (splitSlash_slashcons _)]
      rw [hrec]
      simp

theorem cleanComps_no_dots (comps : List (List Char))
    (h : ∀ s ∈ comps, s ≠ ['.'] ∧ s ≠ ['.', '.']) :
    ∀ acc, cleanComps true acc comps = acc ++ comps.filter (fun s => decide (s ≠ [])) := by
  induction comps with
  | nil => intro acc; simp [cleanComps]
  | cons c cs ih =>
    intro acc
    have hc := h c (by simp)
    unfold cleanComps
    by_cases hce : c = []
    · rw [if_pos (by simp [hce])]
      rw [ih (fun s hs => h s (by simp [hs]))]
      simp [hce, List.filter_cons]
    · rw [if_neg (by simp [hce, hc.1]), if_neg (by simp [hc.2])]
      rw [ih (fun s hs => h s (by simp [hs]))]
      rw [List.filter_cons_of_pos (by simp [hce])]
      simp

theorem pathCleanC_canonical (segs : List (List Char)) (hne : segs ≠ [])
    (hwf : ∀ s ∈ segs, wfSeg s) :
    pathCleanC ('/' :: joinS segs) = '/' :: joinS segs := by
  unfold pathCleanC
  rw [if_neg (by simp)]
  have hhead : (('/' :: joinS segs).head? = some '/') = True := by simp
  have hsplit : splitSlash ('/' :: joinS segs) = [] :: segs := by
    rw [splitSlash_slashcons, splitSlash_join segs hne (fun s hs => (hwf s hs).2.1)]
  simp only [List.head?_cons, hsplit]
  simp only [decide_True, if_true]
  have hclean : cleanComps true [] ([] :: segs) = segs := by
    rw [cleanComps_no_dots ([] :: segs)
      (by
        intro s hs
        rcases List.mem_cons.mp hs with h | h
        · subst h; constructor <;> simp
        · exact ⟨(hwf s h).2.2.1, (hwf s h).2.2.2⟩)]
    rw [List.filter_cons_of_neg (by simp)]
    rw [List.filter_eq_self.mpr (fun s hs => by simp [(hwf s hs).1])]
    simp
  rw [hclean]

theorem pathCleanC_canonical_trail (segs : List (List Char)) (hne : segs ≠ [])
    (hwf : ∀ s ∈ segs, wfSeg s) :
    pathCleanC ('/' :: (joinS segs ++ ['/'])) = '/' :: joinS segs := by
  unfold pathCleanC
  rw [if_neg (by simp)]
  have hsplit : splitSlash ('/' :: (joinS segs ++ ['/'])) = [] :: (segs ++ [[]]) := by
    rw [splitSlash_slashcons, splitSlash_join_trail segs hne (fun s hs => (hwf s hs).2.1)]
  simp only [List.head?_cons, hsplit]
  simp only [decide_True, if_true]
  have hclean : cleanComps true [] ([] :: (segs ++ [[]])) = segs := by
    rw [cleanComps_no_dots ([] :: (segs ++ [[]]))
      (by
        intro s hs
        rcases List.mem_cons.mp hs with h | h
        · subst h; constructor <;> simp
        · rcases List.mem_append.mp h with h2 | h2
          · exact ⟨(hwf s h2).2.2.1, (hwf s h2).2.2.2⟩
          · simp at h2; subst h2; constructor <;> simp)]
    rw [List.filter_cons_of_neg (by simp)]
    rw [List.filter_append]
    rw [List.filter_eq_self.mpr (fun s hs => by simp [(hwf s hs).1])]
    simp
  rw [hclean]

theorem pathSplitC_append_file (x : List Char) (l : List Char) (hl : '/' ∉ l) :
    pathSplitC (x ++ '/' :: l) = (x ++ ['/'], l) := by
  unfold pathSplitC
  have hrev : (x ++ '/' :: l).reverse = l.reverse ++ '/' :: x.reverse := by
    simp
  rw [hrev]
  have htake : (l.reverse ++ '/' :: x.reverse).takeWhile (fun c => decide (c ≠ '/')) = l.reverse := by
    refine takeWhile_append_done _ _ _ _ (fun a ha => ?_) (by simp)
    have : a ∈ l := List.mem_reverse.mp ha
    simp
    intro he
    exact hl (he ▸ this)
  rw [htake]
  dsimp only
  have hlen : (x ++ '/' :: l).length - l.reverse.length = (x ++ ['/']).length := by
    simp
    omega
  rw [hlen]
  have hx : x ++ '/' :: l = (x ++ ['/']) ++ l := by simp
  rw [hx, List.take_left]
  simp

theorem pathSplitC_trailing (x : List Char) :
    pathSplitC (x ++ ['/']) = (x ++ ['/'], []) := by
  have := pathSplitC_append_file x [] (by simp)
  simpa using this

theorem pathBaseC_append_file (x : List Char) (l : List Char) (hl : '/' ∉ l) (hne : l ≠ []) :
    pathBaseC (x ++ '/' :: l) = l := by
  unfold pathBaseC
  rw [if_neg (by simp)]
  rcases hlr : l.reverse with _ | ⟨c, rest⟩
  · exact absurd (List.reverse_eq_nil_iff.mp hlr) hne
  · have hcl : c ∈ l := List.mem_reverse.mp (by rw [hlr]; simp)
    have hcslash : ¬(c = '/') := fun he => hl (he ▸ hcl)
    have hrev : (x ++ '/' :: l).reverse = c :: (rest ++ '/' :: x.reverse) := by
      simp [hlr]
    rw [hrev]
    have hdrop : ((c :: (rest ++ '/' :: x.reverse)).dropWhile (fun d => decide (d = '/')))
        = c :: (rest ++ '/' :: x.reverse) := by
      rw [List.dropWhile_cons]
      simp [hcslash]
    rw [hdrop]
    rw [if_neg (by simp)]
    have hrevrev : (c :: (rest ++ '/' :: x.reverse)).reverse.reverse = c :: (rest ++ '/' :: x.reverse) := by
      simp
    rw [hrevrev]
    have htake : (c :: (rest ++ '/' :: x.reverse)).takeWhile (fun d => decide (d ≠ '/'))
        = c :: rest := by
      have : c :: (rest ++ '/' :: x.reverse) = (c :: rest) ++ '/' :: x.reverse := by simp
      rw [this]
      refine takeWhile_append_done _ _ _ _ (fun a ha => ?_) (by simp)
      have hal : a ∈ l := by
        rw [← hlr] at ha
        exact List.mem_reverse.mp ha
      simp
      intro he
      exact hl (he ▸ hal)
    rw [htake]
    rw [← hlr]
    simp

theorem pathBaseC_strip_trailing (y : List Char) (hne : y ≠ []) :
    pathBaseC (y ++ ['/']) = pathBaseC y := by
  unfold pathBaseC
  rw [if_neg (by simp), if_neg hne]
  have hrev : (y ++ ['/']).reverse = '/' :: y.reverse := by simp
  rw [hrev]
  have hdrop : (('/' :: y.reverse).dropWhile (fun d => decide (d = '/')))
      = y.reverse.dropWhile (fun d => decide (d = '/')) := by
    rw [List.dropWhile_cons]
    simp
  rw [hdrop]

theorem pathBaseC_slash : pathBaseC ['/'] = ['/'] := by decide

theorem pathBaseC_canonical (init : List (List Char)) (l : List Char)
    (hl : '/' ∉ l) (hlne : l ≠ []) :
    pathBaseC ('/' :: joinS (init ++ [l])) = l := by
  cases init with
  | nil =>
    have : ('/' :: joinS ([] ++ [l])) = [] ++ '/' :: l := by rfl
    rw [this]
    exact pathBaseC_append_file [] l hl hlne
  | cons a t =>
    rw [joinS_append_singleton (a :: t) l (by simp)]
    have : '/' :: (joinS (a :: t) ++ '/' :: l) = ('/' :: joinS (a :: t)) ++ '/' :: l := by simp
    rw [this]
    exact pathBaseC_append_file _ l hl hlne

theorem pathDirC_canonical_mid (init : List (List Char)) (l : List Char)
    (hwfi : ∀ s ∈ init, wfSeg s) (hl : '/' ∉ l) :
    pathDirC ('/' :: joinS (init ++ [l])) = '/' :: joinS init := by
  cases init with
  | nil =>
    unfold pathDirC
    have h1 : ('/' :: joinS ([] ++ [l])) = [] ++ '/' :: l := rfl
    rw [h1, pathSplitC_append_file [] l hl]
    dsimp only
    show pathCleanC ['/'] = ['/']
    decide
  | cons a t =>
    unfold pathDirC
    rw [joinS_append_singleton (a :: t) l (by simp)]
    have h2 : '/' :: (joinS (a :: t) ++ '/' :: l) = ('/' :: joinS (a :: t)) ++ '/' :: l := by simp
    rw [h2, pathSplitC_append_file _ l hl]
    dsimp only
    have h3 : ('/' :: joinS (a :: t)) ++ ['/'] = '/' :: (joinS (a :: t) ++ ['/']) := by simp
    rw [h3]
    exact pathCleanC_canonical_trail (a :: t) (by simp) hwfi

theorem pathDirC_trailing_canonical (segs : List (List Char)) (hne : segs ≠ [])
    (hwf : ∀ s ∈ segs, wfSeg s) :
    pathDirC (('/' :: joinS segs) ++ ['/']) = '/' :: joinS segs := by
  unfold pathDirC
  rw [pathSplitC_trailing]
  dsimp only
  have h1 : ('/' :: joinS segs) ++ ['/'] = '/' :: (joinS segs ++ ['/']) := by simp
  rw [h1]
  exact pathCleanC_canonical_trail segs hne hwf

theorem URLToReportFormat_mk (pl : List Char) :
    URLToReportFormat { path := String.mk pl }
      = (let sp := pathSplitC pl
         let dir := if sp.2 = [] then pathDirC (pathDirC sp.1) else sp.1
         if pathBaseC dir = "ptr".toList then .PTRFormat
         else if pathBaseC dir = "annual".toList then .AnnualFormat
         else if pathBaseC dir = "paper".toList then .PaperFormat
         else if pathBaseC dir = "regular".toList then
           if pathBaseC (pathDirC dir) = "extension-notice".toList then .DueDateExtensionFormat
           else .UnknownFormat
         else .UnknownFormat) := rfl

theorem URLToReportFormat_noslash_single (leaf : List Char) (hwl : wfSeg leaf) :
    URLToReportFormat { path := String.mk (mkPathC [leaf] false) } = .UnknownFormat := by
  rw [URLToReportFormat_mk]
  have hp : mkPathC [leaf] false = [] ++ '/' :: leaf := by simp [mkPathC, joinS]
  rw [hp, pathSplitC_append_file [] leaf hwl.2.1]
  dsimp only
  rw [if_neg hwl.1]
  decide

theorem URLToReportFormat_slash_single (leaf : List Char) (hwl : wfSeg leaf) :
    URLToReportFormat { path := String.mk (mkPathC [leaf] true) } = .UnknownFormat := by
  rw [URLToReportFormat_mk]
  have hp : mkPathC [leaf] true = ('/' :: joinS [leaf]) ++ ['/'] := by simp [mkPathC]
  rw [hp, pathSplitC_trailing]
  dsimp only
  rw [if_pos rfl]
  rw [pathDirC_trailing_canonical [leaf] (by simp) (by simpa using hwl)]
  have h2 : ('/' :: joinS [leaf]) = '/' :: joinS ([] ++ [leaf]) := rfl
  rw [h2, pathDirC_canonical_mid [] leaf (by simp) hwl.2.1]
  decide

theorem URLToReportFormat_noslash_parent (i2 : List (List Char)) (parent leaf : List Char)
    (hwi : ∀ s ∈ i2 ++ [parent], wfSeg s) (hwl : wfSeg leaf) :
    URLToReportFormat { path := String.mk (mkPathC ((i2 ++ [parent]) ++ [leaf]) false) }
      = (if parent = "ptr".toList then .PTRFormat
         else if parent = "annual".toList then .AnnualFormat
         else if parent = "paper".toList then .PaperFormat
         else .UnknownFormat) := by
  have hwp : wfSeg parent := hwi parent (by simp)
  rw [URLToReportFormat_mk]
  have hp : mkPathC ((i2 ++ [parent]) ++ [leaf]) false
      = ('/' :: joinS (i2 ++ [parent])) ++ '/' :: leaf := by
    simp only [mkPathC, Bool.false_eq_true, if_false, List.append_nil]
    rw [joinS_append_singleton (i2 ++ [parent]) leaf (by simp)]
    simp
  rw [hp, pathSplitC_append_file _ leaf hwl.2.1]
  dsimp only
  rw [if_neg hwl.1]
  have hbase : pathBaseC (('/' :: joinS (i2 ++ [parent])) ++ ['/'])
      = parent := by
    rw [pathBaseC_strip_trailing _ (by simp)]
    exact pathBaseC_canonical i2 parent hwp.2.1 hwp.1
  rw [hbase]
  by_cases h1 : parent = "ptr".toList
  · rw [if_pos h1, if_pos h1]
  · rw [if_neg h1, if_neg h1]
    by_cases h2 : parent = "annual".toList
    · rw [if_pos h2, if_pos h2]
    · rw [if_neg h2, if_neg h2]
      by_cases h3 : parent = "paper".toList
      · rw [if_pos h3, if_pos h3]
      · rw [if_neg h3, if_neg h3]
        by_cases h4 : parent = "regular".toList
        · rw [if_pos h4]
          have hdir : pathDirC (('/' :: joinS (i2 ++ [parent])) ++ ['/'])
              = '/' :: joinS (i2 ++ [parent]) :=
            pathDirC_trailing_canonical (i2 ++ [parent]) (by simp) hwi
          rw [hdir]
          rw [pathBaseC_canonical i2 parent hwp.2.1 hwp.1]
          rw [if_neg (by rw [h4]; decide)]
        · rw [if_neg h4]

theorem URLToReportFormat_slash_parent (i2 : List (List Char)) (parent leaf : List Char)
    (hwi : ∀ s ∈ i2 ++ [parent], wfSeg s) (hwl : wfSeg leaf) :
    URLToReportFormat { path := String.mk (mkPathC ((i2 ++ [parent]) ++ [leaf]) true) }
      = (if parent = "ptr".toList then .PTRFormat
         else if parent = "annual".toList then .AnnualFormat
         else if parent = "paper".toList then .PaperFormat
         else if parent = "regular".toList then
           (if pathBaseC ('/' :: joinS i2) = "extension-notice".toList
            then .DueDateExtensionFormat else .UnknownFormat)
         else .UnknownFormat) := by
  have hwp : wfSeg parent := hwi parent (by simp)
  have hwfull : ∀ s ∈ (i2 ++ [parent]) ++ [leaf], wfSeg s := by
    intro s hs
    rcases List.mem_append.mp hs with h | h
    · exact hwi s h
    · simp at h; subst h; exact hwl
  rw [URLToReportFormat_mk]
  have hp : mkPathC ((i2 ++ [parent]) ++ [leaf]) true
      = ('/' :: joinS ((i2 ++ [parent]) ++ [leaf])) ++ ['/'] := by
    simp [mkPathC]
  rw [hp, pathSplitC_trailing]
  dsimp only
  rw [if_pos rfl]
  rw [pathDirC_trailing_canonical ((i2 ++ [parent]) ++ [leaf]) (by simp) hwfull]
  rw [pathDirC_canonical_mid (i2 ++ [parent]) leaf hwi hwl.2.1]
  rw [pathBaseC_canonical i2 parent hwp.2.1 hwp.1]
  by_cases h1 : parent = "ptr".toList
  · rw [if_pos h1, if_pos h1]
  · rw [if_neg h1, if_neg h1]
    by_cases h2 : parent = "annual".toList
    · rw [if_pos h2, if_pos h2]
    · rw [if_neg h2, if_neg h2]
      by_cases h3 : parent = "paper".toList
      · rw [if_pos h3, if_pos h3]
      · rw [if_neg h3, if_neg h3]
        by_cases h4 : parent = "regular".toList
        · rw [if_pos h4, if_pos h4]
          rw [pathDirC_canonical_mid i2 parent
            (fun s hs => hwi s (by simp [hs])) hwp.2.1]
        · rw [if_neg h4, if_neg h4]

theorem URLToReportFormat_segments (segs : List (List Char)) (trail : Bool)
    (hwf : ∀ s ∈ segs, wfSeg s) :
    URLToReportFormat { path := String.mk (mkPathC segs trail) }
      = (if trail then classifySegs segs else classifySegsNoSlash segs) := by
  rcases List.eq_nil_or_concat segs with hnil | ⟨init, leaf, hcat⟩
  · subst hnil
    cases trail <;> decide
  · rw [List.concat_eq_append] at hcat
    subst hcat
    have hwl : wfSeg leaf := hwf leaf (by simp)
    rcases List.eq_nil_or_concat init with hinil | ⟨i2, parent, hicat⟩
    · subst hinil
      simp only [List.nil_append]
      cases trail
      · rw [URLToReportFormat_noslash_single leaf hwl]
        simp [classifySegsNoSlash]
      · rw [URLToReportFormat_slash_single leaf hwl]
        simp [classifySegs]
    · rw [List.concat_eq_append] at hicat
      subst hicat
      have hwi : ∀ s ∈ i2 ++ [parent], wfSeg s :=
        fun s hs => hwf s (List.mem_append_left _ hs)
      have hrev : ((i2 ++ [parent]) ++ [leaf]).reverse = leaf :: parent :: i2.reverse := by
        simp
      cases trail
      · rw [URLToReportFormat_noslash_parent i2 parent leaf hwi hwl]
        simp only [Bool.false_eq_true, if_false]
        unfold classifySegsNoSlash
        rw [hrev]
      · rw [URLToReportFormat_slash_parent i2 parent leaf hwi hwl]
        simp only [if_true]
        unfold classifySegs
        rw [hrev]
        dsimp only
        by_cases h1 : parent = "ptr".toList
        · rw [if_pos h1, if_pos h1]
        · rw [if_neg h1, if_neg h1]
          by_cases h2 : parent = "annual".toList
          · rw [if_pos h2, if_pos h2]
          · rw [if_neg h2, if_neg h2]
            by_cases h3 : parent = "paper".toList
            · rw [if_pos h3, if_pos h3]
            · rw [if_neg h3, if_neg h3]
              by_cases h4 : parent = "regular".toList
              · rw [if_pos h4, if_pos h4]
                rcases List.eq_nil_or_concat i2 with hi2 | ⟨i3, g, hgcat⟩
                · subst hi2
                  rw [show ('/' :: joinS ([] : List (List Char))) = ['/'] from rfl, pathBaseC_slash]
                  rw [if_neg (by decide)]
                  decide
                · rw [List.concat_eq_append] at hgcat
                  subst hgcat
                  have hwg : wfSeg g := hwi g (List.mem_append_left _ (by simp))
                  rw [pathBaseC_canonical i3 g hwg.2.1 hwg.1]
                  have hrev2 : (i3 ++ [g]).reverse = g :: i3.reverse := by simp
                  rw [hrev2]
              · rw [if_neg h4, if_neg h4]

/-- Claim C3 counterexample.  On the slash-less path
`/search/view/extension-notice/regular/abc-123` the preceding segment is
`regular` and its parent is `extension-notice`, so the claim requires
DueDateExtensionFormat; the code returns UnknownFormat (its grandparent
lookup lands on `regular` itself). -/
theorem c3_counterexample_extension_no_slash :
    URLToReportFormat { path := "/search/view/extension-notice/regular/abc-123" }
      = ReportFormat.UnknownFormat
    ∧ classifySegs
        ["search".toList, "view".toList, "extension-notice".toList, "regular".toList,
         "abc-123".toList] = ReportFormat.DueDateExtensionFormat
    ∧ ReportFormat.UnknownFormat ≠ ReportFormat.DueDateExtensionFormat := by
  decide

/-- Claim C3 as amended.  `URLToReportFormat` is a pure function of the
URL path.  On a directory-style path over well-formed segments it
returns the format selected by the segment preceding the final one —
`ptr`, `annual`, `paper`, or `regular` under an `extension-notice`
parent — and UnknownFormat for every other shape; the
`regular`/`extension-notice` case, however, is recognised only when the
path carries its trailing slash (the claimed stripping of a trailing
empty segment): on the slash-less form it yields UnknownFormat. -/
theorem c3_classifier_segments (segs : List (List Char)) (trail : Bool)
    (hwf : ∀ s ∈ segs, wfSeg s) :
    (URLToReportFormat { path := String.mk (mkPathC segs trail) }
      = (if trail then classifySegs segs else classifySegsNoSlash segs))
    ∧ ∀ (u v : URLModel), u = v → URLToReportFormat u = URLToReportFormat v :=
  ⟨URLToReportFormat_segments segs trail hwf, fun _ _ h => h ▸ rfl⟩

/-- Claim C3 witness: the canonical PTR path shape classifies as PTR. -/
theorem c3_classifier_segments_witness :
    (∀ s ∈ c3SegsEx, wfSeg s)
    ∧ URLToReportFormat { path := String.mk (mkPathC c3SegsEx true) }
        = ReportFormat.PTRFormat := by
  refine ⟨by decide, ?_⟩
  have h := (c3_classifier_segments c3SegsEx true (by decide)).1
  rw [h]
  decide

end Efd
